import Mathlib

/-! canvasSpaceOdyssey: a verification development for `src/canvas.js`.

The script animates "planets" (class `Circle`) kept in a registry (class
`CircleManager`), moves the planet nearest to the pointer towards the pointer
and fits a background image into the canvas.

Modelling decisions.

* Numbers.  A finite JavaScript number is modelled as an element of a linearly
  ordered field `K`.  The methods are first written with exact arithmetic, which
  is what they compute up to the last bit while nothing overflows; the
  definitions are generic in `K`: they run on `ℚ`, and the statements are read
  on `ℝ` with `Real.sqrt`.
* Overflow.  `isClosest` compares each distance with `Infinity`, so it is also
  written with the overflow of doubles (`isClosestRanged`): a sum of squares
  beyond `Number.MAX_VALUE` is `Infinity`.
* Rounding.  `moveTowards` adds a step to a coordinate, so it is also written
  with every operation rounded to the nearest double (`moveTowardsRounded`).
* `Math.sqrt` is a function of the host, not of the script: every definition
  that calls it takes it as the parameter `sqrt`.  A theorem that needs a
  property of the square root states it as the hypothesis `IsSqrt sqrt`.
* Objects.  A `Circle` object is a reference (`Ref`) into a heap; the `Set` of
  the registry is the list of its references in insertion order (the order in
  which `Set.prototype.forEach` visits them), without repetition.
* The 2D context `ctx` is written to and never read: the drawing calls leave
  the state of the script alone, and are not part of the state below.
-/

set_option linter.unusedSectionVars false

namespace CanvasSpaceOdyssey

variable {K : Type} [LinearOrderedField K]

/-! ## The image `onload` handler (lines 14-30) -/

/-- The four numbers handed to `ctx.drawImage(img, offsetX, offsetY, newWidth, newHeight)`. -/
structure DrawImageArgs (K : Type) where
  offsetX : K
  offsetY : K
  newWidth : K
  newHeight : K

/-- The body of `img.onload`, as a function of `img.width`, `img.height`,
`canvas.width` and `canvas.height`. -/
def imgOnload (imgWidth imgHeight canvasWidth canvasHeight : K) : DrawImageArgs K :=
  let aspectRatio := imgWidth / imgHeight
  let newWidth := canvasWidth
  let newHeight := canvasWidth / aspectRatio
  let fitted : K × K :=
    if newHeight > canvasHeight then (canvasHeight * aspectRatio, canvasHeight)
    else (newWidth, newHeight)
  { offsetX := (canvasWidth - fitted.1) / 2
    offsetY := (canvasHeight - fitted.2) / 2
    newWidth := fitted.1
    newHeight := fitted.2 }

/-! ## class `Circle` (lines 40-108) -/

/-- The fields of a `Circle` object. -/
structure Circle (K : Type) where
  x : K
  y : K
  radius : K
  color : String
  isSelected : Bool
  moonRadius : K
  orbitRadius : K
  angle : K
  orbitSpeed : K

/-- The constructor `new Circle(x, y, radius, color)`; `random` is the value
returned by its call of `Math.random()` and `PI` is `Math.PI`. -/
def Circle.constructor (x y radius : K) (color : String) (random PI : K) : Circle K :=
  { x := x
    y := y
    radius := radius
    color := color
    isSelected := false
    moonRadius := 5
    orbitRadius := radius + 10
    angle := random * PI * 2
    orbitSpeed := 0.02 }

/-- The method `updateMoonPosition()`: the angle advances by `orbitSpeed`; the
moon is then painted on the canvas. -/
def Circle.updateMoonPosition (c : Circle K) : Circle K :=
  { c with angle := c.angle + c.orbitSpeed }

/-- The method `draw()`: paints the planet on the canvas, then calls
`updateMoonPosition()`. -/
def Circle.draw (c : Circle K) : Circle K :=
  c.updateMoonPosition

/-- The method `moveTowards(targetX, targetY, speed)`, in exact arithmetic
(`moveTowardsRounded` has the rounding of doubles). -/
def Circle.moveTowards (sqrt : K → K) (c : Circle K) (targetX targetY speed : K) : Circle K :=
  let dx := targetX - c.x
  let dy := targetY - c.y
  let distance := sqrt (dx ^ 2 + dy ^ 2)
  if distance > 1 then
    { c with x := c.x + (dx / distance) * speed, y := c.y + (dy / distance) * speed }
  else c

/-- The default value of the parameter `speed` of `moveTowards`. -/
def defaultSpeed : K := 2

/-- The method `distanceTo(x, y)`. -/
def Circle.distanceTo (sqrt : K → K) (c : Circle K) (x y : K) : K :=
  sqrt ((c.x - x) ^ 2 + (c.y - y) ^ 2)

/-! ## class `CircleManager` (lines 111-157) -/

/-- A reference to a `Circle` object. -/
abbrev Ref := Nat

/-- A `CircleManager` together with the objects its references point to:
`heap r` is the object behind the reference `r`; `circles` is the `Set`, as
the list of its members in insertion order. -/
structure CircleManager (K : Type) where
  heap : Ref → Circle K
  circles : List Ref
  selectedCircle : Option Ref

/-- The constructor `new CircleManager()`, over a given heap. -/
def CircleManager.constructor (heap : Ref → Circle K) : CircleManager K :=
  { heap := heap, circles := [], selectedCircle := none }

/-- The method `addCircle(circle)`: `Set.prototype.add` appends the reference
unless it is a member already. -/
def CircleManager.addCircle (m : CircleManager K) (circle : Ref) : CircleManager K :=
  if circle ∈ m.circles then m else { m with circles := m.circles ++ [circle] }

/-- One round of the first `forEach` of `isClosest`, on the pair
`(closestCircle, minDistance)`, for a distance that has not overflowed
(`closestStepRanged` has the overflow of doubles); `⊤` is `Infinity`. -/
def closestStep (sqrt : K → K) (heap : Ref → Circle K) (cursorX cursorY : K)
    (acc : Option Ref × WithTop K) (circle : Ref) : Option Ref × WithTop K :=
  let distance := (heap circle).distanceTo sqrt cursorX cursorY
  if (distance : WithTop K) < acc.2 then (some circle, (distance : WithTop K)) else acc

/-- The first `forEach` of `isClosest`, started from `(null, Infinity)`. -/
def closestScan (sqrt : K → K) (heap : Ref → Circle K) (cursorX cursorY : K)
    (circles : List Ref) : Option Ref × WithTop K :=
  circles.foldl (closestStep sqrt heap cursorX cursorY) (none, ⊤)

/-- The assignment `circle.isSelected = v` to the object behind `circle`. -/
def setSelected (heap : Ref → Circle K) (circle : Ref) (v : Bool) : Ref → Circle K :=
  Function.update heap circle { heap circle with isSelected := v }

/-- The second `forEach` of `isClosest`: every member gets `isSelected = false`. -/
def resetSelection (heap : Ref → Circle K) (circles : List Ref) : Ref → Circle K :=
  circles.foldl (fun h circle => setSelected h circle false) heap

/-- The method `isClosest(cursorX, cursorY)`, for distances that have not
overflowed (`isClosestRanged` has the overflow of doubles). -/
def CircleManager.isClosest (sqrt : K → K) (m : CircleManager K) (cursorX cursorY : K) :
    CircleManager K :=
  let closestCircle := (closestScan sqrt m.heap cursorX cursorY m.circles).1
  let cleared := resetSelection m.heap m.circles
  match closestCircle with
  | some closest =>
    { m with heap := setSelected cleared closest true, selectedCircle := some closest }
  | none => { m with heap := cleared }

/-- The method `updateSelectedCircle(targetX, targetY)`. -/
def CircleManager.updateSelectedCircle (sqrt : K → K) (m : CircleManager K)
    (targetX targetY : K) : CircleManager K :=
  match m.selectedCircle with
  | some selected =>
    let moved := (m.heap selected).moveTowards sqrt targetX targetY defaultSpeed
    { m with heap := Function.update m.heap selected moved }
  | none => m

/-- The method `drawCircles()`: `draw()` on every member, in insertion order. -/
def CircleManager.drawCircles (m : CircleManager K) : CircleManager K :=
  { m with heap := m.circles.foldl (fun h circle => Function.update h circle (h circle).draw) m.heap }

/-! ## `isClosest` on the whole range of doubles

A double is finite only up to `Number.MAX_VALUE`, the parameter `maxValue`
below.  In `distanceTo` a sum of squares beyond `maxValue` is `Infinity`, and so
is its square root; `Infinity` is written `⊤`.  The definitions above are these
ones when no distance overflows (`isClosestRanged_eq_isClosest`). -/

/-- The method `distanceTo(x, y)` with the overflow of doubles: `Infinity` when
the sum of the squares is beyond `maxValue`. -/
def Circle.distanceToRanged (sqrt : K → K) (maxValue : K) (c : Circle K) (x y : K) :
    WithTop K :=
  if maxValue < (c.x - x) ^ 2 + (c.y - y) ^ 2 then ⊤
  else ((c.distanceTo sqrt x y : K) : WithTop K)

/-- One round of the first `forEach` of `isClosest`, with the overflow of
doubles: an `Infinity` distance is not below `minDistance`. -/
def closestStepRanged (sqrt : K → K) (maxValue : K) (heap : Ref → Circle K)
    (cursorX cursorY : K) (acc : Option Ref × WithTop K) (circle : Ref) :
    Option Ref × WithTop K :=
  let distance := (heap circle).distanceToRanged sqrt maxValue cursorX cursorY
  if distance < acc.2 then (some circle, distance) else acc

/-- The first `forEach` of `isClosest`, with the overflow of doubles, started
from `(null, Infinity)`. -/
def closestScanRanged (sqrt : K → K) (maxValue : K) (heap : Ref → Circle K)
    (cursorX cursorY : K) (circles : List Ref) : Option Ref × WithTop K :=
  circles.foldl (closestStepRanged sqrt maxValue heap cursorX cursorY) (none, ⊤)

/-- The method `isClosest(cursorX, cursorY)`, with the overflow of doubles. -/
def CircleManager.isClosestRanged (sqrt : K → K) (maxValue : K) (m : CircleManager K)
    (cursorX cursorY : K) : CircleManager K :=
  let closestCircle := (closestScanRanged sqrt maxValue m.heap cursorX cursorY m.circles).1
  let cleared := resetSelection m.heap m.circles
  match closestCircle with
  | some closest =>
    { m with heap := setSelected cleared closest true, selectedCircle := some closest }
  | none => { m with heap := cleared }

/-! ## `moveTowards` with the rounding of doubles

Every arithmetic operation on doubles returns the double nearest to the exact
result.  The rounding is the parameter `round` below; `roundDouble` is the
rounding of binary64 (53 significant bits, ties to even, exponent not limited).
With `round` the identity, `moveTowardsRounded` is `moveTowards`
(`moveTowardsRounded_id`). -/

/-- The integer nearest to `t`, the even one of the two when `t` is half-way. -/
def roundEven [FloorRing K] (t : K) : Int :=
  if Int.fract t < 1 / 2 then ⌊t⌋
  else if 1 / 2 < Int.fract t then ⌊t⌋ + 1
  else if ⌊t⌋ % 2 = 0 then ⌊t⌋ else ⌊t⌋ + 1

/-- The double nearest to `v`: `v` is brought to a significand of 53 bits by the
power of two of its binade and rounded there. -/
def roundDouble [FloorRing K] (v : K) : K :=
  if v = 0 then 0
  else (2 : K) ^ (Int.log 2 |v| - 52) * (roundEven (v / (2 : K) ^ (Int.log 2 |v| - 52)) : K)

/-- The method `moveTowards(targetX, targetY, speed)`, every operation rounded. -/
def Circle.moveTowardsRounded (round sqrt : K → K) (c : Circle K) (targetX targetY speed : K) :
    Circle K :=
  let dx := round (targetX - c.x)
  let dy := round (targetY - c.y)
  let distance := round (sqrt (round (round (dx ^ 2) + round (dy ^ 2))))
  if distance > 1 then
    { c with x := round (c.x + round (round (dx / distance) * speed))
             y := round (c.y + round (round (dy / distance) * speed)) }
  else c

/-- The `Circle` after `n` calls of `moveTowards` with the default speed and a
fixed target, every operation rounded. -/
def moveTowardsRoundedTimes (round sqrt : K → K) (targetX targetY : K) (n : Nat)
    (c : Circle K) : Circle K :=
  (fun d => Circle.moveTowardsRounded round sqrt d targetX targetY defaultSpeed)^[n] c

/-! ## The script: listeners and the animation loop (lines 37, 160-198) -/

/-- The state of the running script: the registry `circleManager`, the cursor
`cursorX`, `cursorY`, the size of the canvas, and the next unused reference. -/
structure Script (K : Type) where
  circleManager : CircleManager K
  cursorX : K
  cursorY : K
  canvasWidth : K
  canvasHeight : K
  fresh : Ref

/-- What the host can do to the script. -/
inductive Event (K : Type) where
  /-- A `mousemove` on the canvas, with `e.offsetX` and `e.offsetY`. -/
  | mousemove (offsetX offsetY : K)
  /-- A `click` on the button; `r1`, `r2`, `r3` are the values of the three
  calls of `Math.random()` for the position and the radius, `randomColor` is
  the colour string, and `r5` is the `Math.random()` of the constructor. -/
  | click (r1 r2 r3 : K) (randomColor : String) (r5 : K)
  /-- A frame: one run of `animate()`. -/
  | frame

/-- The `mousemove` listener; `e.offsetX` and `e.offsetY` are inside the canvas,
where no distance overflows. -/
def onMousemove (sqrt : K → K) (s : Script K) (offsetX offsetY : K) : Script K :=
  { s with
    cursorX := offsetX
    cursorY := offsetY
    circleManager := s.circleManager.isClosest sqrt offsetX offsetY }

/-- The `click` listener: a new `Circle` object is allocated at the reference
`fresh` and added to the registry. -/
def onClick (PI : K) (s : Script K) (r1 r2 r3 : K) (randomColor : String) (r5 : K) : Script K :=
  let randomX := r1 * s.canvasWidth
  let randomY := r2 * s.canvasHeight
  let randomRadius := r3 * 20 + 10
  let newCircle := Circle.constructor randomX randomY randomRadius randomColor r5 PI
  let m := s.circleManager
  { s with
    circleManager :=
      CircleManager.addCircle { m with heap := Function.update m.heap s.fresh newCircle } s.fresh
    fresh := s.fresh + 1 }

/-- The function `animate()`: one frame. -/
def animate (sqrt : K → K) (s : Script K) : Script K :=
  { s with
    circleManager := (s.circleManager.updateSelectedCircle sqrt s.cursorX s.cursorY).drawCircles }

/-- The reaction of the script to one event. -/
def step (sqrt : K → K) (PI : K) (s : Script K) : Event K → Script K
  | .mousemove offsetX offsetY => onMousemove sqrt s offsetX offsetY
  | .click r1 r2 r3 randomColor r5 => onClick PI s r1 r2 r3 randomColor r5
  | .frame => animate sqrt s

/-- The script after a sequence of events. -/
def run (sqrt : K → K) (PI : K) (s : Script K) (events : List (Event K)) : Script K :=
  events.foldl (step sqrt PI) s

/-- The script right after loading: an empty registry, the cursor at `(0, 0)`,
no `Circle` allocated (the heap is filled with a placeholder object), and the
first call of `animate()` done. -/
def initial (sqrt : K → K) (canvasWidth canvasHeight : K) : Script K :=
  animate sqrt
    { circleManager := CircleManager.constructor (fun _ => Circle.constructor 0 0 0 "" 0 0)
      cursorX := 0
      cursorY := 0
      canvasWidth := canvasWidth
      canvasHeight := canvasHeight
      fresh := 0 }

/-! ## Predicates used by the statements -/

/-- The parameter `sqrt` is a square root: on a non-negative number it returns
the non-negative number whose square is that number. -/
def IsSqrt (sqrt : K → K) : Prop :=
  ∀ v, 0 ≤ v → 0 ≤ sqrt v ∧ sqrt v * sqrt v = v

/-- The members of the registry whose `isSelected` is `true`, in insertion order. -/
def selectedOnes (m : CircleManager K) : List Ref :=
  m.circles.filter (fun r => (m.heap r).isSelected)

/-- The invariant of the registry: a non-null `selectedCircle` is a member, its
`isSelected` is `true`, and every other member has `isSelected` `false`. -/
def RegistryInv (m : CircleManager K) : Prop :=
  ∀ s, m.selectedCircle = some s →
    s ∈ m.circles ∧ (m.heap s).isSelected = true ∧
      ∀ r ∈ m.circles, r ≠ s → (m.heap r).isSelected = false

/-- The event is a `mousemove`. -/
def Event.isMousemove : Event K → Bool
  | .mousemove _ _ => true
  | _ => false

/-- The position of a `Circle` after `n` calls of `moveTowards` with the
default speed and a fixed target. -/
def moveTowardsTimes (sqrt : K → K) (targetX targetY : K) (n : Nat) (c : Circle K) : Circle K :=
  (fun d => Circle.moveTowards sqrt d targetX targetY defaultSpeed)^[n] c

/-- What holds of the script in every state it can reach: the `Set` has no
repetition, every member was allocated before `fresh`, and the members with
`isSelected == true` are `selectedCircle` if it is non-null and none otherwise. -/
def Script.Good (s : Script K) : Prop :=
  s.circleManager.circles.Nodup ∧
  (∀ r ∈ s.circleManager.circles, r < s.fresh) ∧
  selectedOnes s.circleManager = s.circleManager.selectedCircle.toList

/-- The fields the constructor fixes have the values the constructor gave them:
`orbitSpeed` is 0.02, `moonRadius` is 5 and `orbitRadius` is `radius + 10`. -/
def Circle.AsBuilt (c : Circle K) : Prop :=
  c.orbitSpeed = 0.02 ∧ c.moonRadius = 5 ∧ c.orbitRadius = c.radius + 10

/-! ## Concrete states used to evaluate the definitions -/

/-- A heap with one `Circle` at `(0, 0)` behind reference `0` and one at
`(100, 100)` behind every other reference, all fresh from the constructor. -/
def twoHeap (K : Type) [LinearOrderedField K] : Ref → Circle K :=
  fun r => if r = 0 then Circle.constructor 0 0 10 "red" 0 0 else Circle.constructor 100 100 10 "blue" 0 0

/-- A registry holding the two entities at `(0, 0)` and `(100, 100)`, nothing selected. -/
def twoCircles (K : Type) [LinearOrderedField K] : CircleManager K :=
  (CircleManager.addCircle (CircleManager.addCircle (CircleManager.constructor (twoHeap K)) 0) 1)

/-- An empty registry. -/
def emptyRegistry (K : Type) [LinearOrderedField K] : CircleManager K :=
  CircleManager.constructor (twoHeap K)

/-- A registry holding three entities fresh from the constructor, nothing selected. -/
def threeCircles (K : Type) [LinearOrderedField K] : CircleManager K :=
  CircleManager.addCircle (twoCircles K) 2

/-- A registry holding the entities `0` and `1` with `0` selected, over a heap
in which the `Circle` behind `2`, not a member, has `isSelected == true` too
(as a `Circle` has that another `CircleManager` holds and has selected). -/
def pickedRegistry (K : Type) [LinearOrderedField K] : CircleManager K :=
  { heap := setSelected (setSelected (twoHeap K) 0 true) 2 true
    circles := [0, 1]
    selectedCircle := some 0 }

/-- A `mousemove` at `(5, 5)` followed by one `click`. -/
def moveThenClick (K : Type) [LinearOrderedField K] : List (Event K) :=
  [Event.mousemove 5 5, Event.click (1 / 2) (1 / 2) (1 / 2) "hsl(180, 70%, 50%)" 0]

/-- One `click`: the events before the `mousemove` of the witness of C5. -/
def oneClick (K : Type) [LinearOrderedField K] : List (Event K) :=
  [Event.click (1 / 2) (1 / 2) (1 / 2) "hsl(180, 70%, 50%)" 0]

/-- A `Circle` at `(0, 0)`, fresh from the constructor. -/
def originCircle (K : Type) [LinearOrderedField K] : Circle K :=
  Circle.constructor 0 0 10 "red" 0 0

/-- A `Circle` at `(a, 0)`, fresh from the constructor. -/
def circleAtX (K : Type) [LinearOrderedField K] (a : K) : Circle K :=
  Circle.constructor a 0 10 "red" 0 0

/-- A heap in which every `Circle` is at `(10^200, 0)`, fresh from the constructor. -/
def farHeap (K : Type) [LinearOrderedField K] : Ref → Circle K :=
  fun _ => Circle.constructor (10 ^ 200) 0 10 "red" 0 0

/-- A registry holding one entity, at `(10^200, 0)`. -/
def farRegistry (K : Type) [LinearOrderedField K] : CircleManager K :=
  CircleManager.addCircle (CircleManager.constructor (farHeap K)) 0

/-- A registry holding two entities, both at `(10^200, 0)`. -/
def farPair (K : Type) [LinearOrderedField K] : CircleManager K :=
  CircleManager.addCircle (farRegistry K) 1

/-! ## Lemmas on the two loops of `isClosest` -/

theorem closestScan_snoc (sqrt : K → K) (heap : Ref → Circle K) (x y : K) (l : List Ref)
    (a : Ref) :
    closestScan sqrt heap x y (l ++ [a]) =
      closestStep sqrt heap x y (closestScan sqrt heap x y l) a := by
  simp [closestScan, List.foldl_append]

/-- What the scan returns: `(null, Infinity)` on the empty list, and otherwise
the first member at the least distance, with that distance. -/
theorem closestScan_spec (sqrt : K → K) (heap : Ref → Circle K) (x y : K) (l : List Ref) :
    (l = [] ∧ closestScan sqrt heap x y l = (none, ⊤)) ∨
    ∃ pre r post, l = pre ++ r :: post ∧
      closestScan sqrt heap x y l = (some r, (((heap r).distanceTo sqrt x y : K) : WithTop K)) ∧
      (∀ q ∈ pre, (heap r).distanceTo sqrt x y < (heap q).distanceTo sqrt x y) ∧
      (∀ q ∈ post, (heap r).distanceTo sqrt x y ≤ (heap q).distanceTo sqrt x y) := by
  induction l using List.reverseRecOn with
  | nil => exact Or.inl ⟨rfl, rfl⟩
  | append_singleton l a ih =>
    right
    rw [closestScan_snoc]
    rcases ih with ⟨hl, hs⟩ | ⟨pre, r, post, hl, hs, hpre, hpost⟩
    · refine ⟨[], a, [], by simp [hl], ?_, by simp, by simp⟩
      simp [hs, closestStep, WithTop.coe_lt_top]
    · by_cases hlt : (heap a).distanceTo sqrt x y < (heap r).distanceTo sqrt x y
      · refine ⟨l, a, [], rfl, ?_, ?_, by simp⟩
        · simp [hs, closestStep, WithTop.coe_lt_coe, hlt]
        · intro q hq
          rw [hl] at hq
          rcases List.mem_append.1 hq with h | h
          · exact lt_trans hlt (hpre q h)
          · rcases List.mem_cons.1 h with h | h
            · rw [h]; exact hlt
            · exact lt_of_lt_of_le hlt (hpost q h)
      · refine ⟨pre, r, post ++ [a], by simp [hl], ?_, hpre, ?_⟩
        · simp [hs, closestStep, WithTop.coe_lt_coe, hlt]
        · intro q hq
          rcases List.mem_append.1 hq with h | h
          · exact hpost q h
          · rw [List.mem_singleton.1 h]; exact not_lt.1 hlt

theorem resetSelection_apply (heap : Ref → Circle K) (l : List Ref) (r : Ref) :
    resetSelection heap l r =
      if r ∈ l then { heap r with isSelected := false } else heap r := by
  induction l generalizing heap with
  | nil => simp [resetSelection]
  | cons a l ih =>
    have hstep : resetSelection heap (a :: l) = resetSelection (setSelected heap a false) l := rfl
    rw [hstep, ih]
    by_cases hra : r = a
    · subst hra
      by_cases hrl : r ∈ l <;> simp [hrl, setSelected]
    · by_cases hrl : r ∈ l <;> simp [hrl, hra, setSelected, Function.update_noteq hra]

theorem resetSelection_nil (heap : Ref → Circle K) : resetSelection heap [] = heap := rfl

/-- The heap after `isClosest` when the scan found `c`. -/
theorem isClosest_heap_apply (heap : Ref → Circle K) (l : List Ref) (c r : Ref) :
    setSelected (resetSelection heap l) c true r =
      if r = c then { heap r with isSelected := true }
      else if r ∈ l then { heap r with isSelected := false } else heap r := by
  by_cases hrc : r = c
  · subst hrc
    by_cases hrl : r ∈ l <;> simp [setSelected, resetSelection_apply, hrl]
  · simp [setSelected, Function.update_noteq hrc, resetSelection_apply, hrc]

/-- In a list without repetition, the members equal to a given member are
that member, once. -/
theorem filter_eq_singleton (l : List Ref) (c : Ref) (hnd : l.Nodup) (hc : c ∈ l)
    (p : Ref → Bool) (hp : ∀ r ∈ l, p r = decide (r = c)) : l.filter p = [c] := by
  rw [List.filter_congr hp, List.filter_eq, List.count_eq_one_of_mem hnd hc]
  rfl

/-- The outcome of `isClosest` on a registry with at least one member. -/
theorem isClosest_of_ne_nil (sqrt : K → K) (m : CircleManager K) (x y : K)
    (hne : m.circles ≠ []) :
    ∃ pre c post, m.circles = pre ++ c :: post ∧
      m.isClosest sqrt x y =
        { m with heap := setSelected (resetSelection m.heap m.circles) c true
                 selectedCircle := some c } ∧
      (∀ q ∈ pre, (m.heap c).distanceTo sqrt x y < (m.heap q).distanceTo sqrt x y) ∧
      (∀ q ∈ post, (m.heap c).distanceTo sqrt x y ≤ (m.heap q).distanceTo sqrt x y) := by
  rcases closestScan_spec sqrt m.heap x y m.circles with
    ⟨hl, _⟩ | ⟨pre, c, post, hl, hs, hpre, hpost⟩
  · exact absurd hl hne
  · exact ⟨pre, c, post, hl, by simp [CircleManager.isClosest, hs], hpre, hpost⟩

/-- The outcome of `isClosest` on an empty registry: nothing changes. -/
theorem isClosest_of_nil (sqrt : K → K) (m : CircleManager K) (x y : K)
    (hnil : m.circles = []) : m.isClosest sqrt x y = m := by
  cases m with
  | mk heap circles selectedCircle =>
    simp only at hnil
    subst hnil
    simp [CircleManager.isClosest, closestScan, resetSelection]

theorem isClosest_heap_distanceTo (sqrt : K → K) (heap : Ref → Circle K) (l : List Ref)
    (c r : Ref) (x y : K) :
    (setSelected (resetSelection heap l) c true r).distanceTo sqrt x y =
      (heap r).distanceTo sqrt x y := by
  rw [isClosest_heap_apply]
  split_ifs <;> rfl

theorem isClosest_heap_isSelected (heap : Ref → Circle K) (l : List Ref) (c r : Ref)
    (hr : r ∈ l) :
    (setSelected (resetSelection heap l) c true r).isSelected = decide (r = c) := by
  rw [isClosest_heap_apply]
  by_cases hrc : r = c <;> simp [hrc, hr]

/-! ## Lemmas on `isClosest` with the overflow of doubles -/

theorem distanceToRanged_of_le (sqrt : K → K) (maxValue : K) (c : Circle K) (x y : K)
    (h : (c.x - x) ^ 2 + (c.y - y) ^ 2 ≤ maxValue) :
    c.distanceToRanged sqrt maxValue x y = ((c.distanceTo sqrt x y : K) : WithTop K) := by
  unfold Circle.distanceToRanged
  rw [if_neg (not_lt.2 h)]

theorem distanceToRanged_of_gt (sqrt : K → K) (maxValue : K) (c : Circle K) (x y : K)
    (h : maxValue < (c.x - x) ^ 2 + (c.y - y) ^ 2) :
    c.distanceToRanged sqrt maxValue x y = ⊤ := by
  unfold Circle.distanceToRanged
  rw [if_pos h]

theorem closestScanRanged_snoc (sqrt : K → K) (maxValue : K) (heap : Ref → Circle K)
    (x y : K) (l : List Ref) (a : Ref) :
    closestScanRanged sqrt maxValue heap x y (l ++ [a]) =
      closestStepRanged sqrt maxValue heap x y (closestScanRanged sqrt maxValue heap x y l) a := by
  simp [closestScanRanged, List.foldl_append]

/-- What the scan returns: `(null, Infinity)` when every distance is `Infinity`
(as on the empty list), and otherwise the first member at the least distance,
which is finite, with that distance. -/
theorem closestScanRanged_spec (sqrt : K → K) (maxValue : K) (heap : Ref → Circle K)
    (x y : K) (l : List Ref) :
    ((∀ q ∈ l, (heap q).distanceToRanged sqrt maxValue x y = ⊤) ∧
      closestScanRanged sqrt maxValue heap x y l = (none, ⊤)) ∨
    ∃ pre r post, l = pre ++ r :: post ∧
      closestScanRanged sqrt maxValue heap x y l =
        (some r, (heap r).distanceToRanged sqrt maxValue x y) ∧
      (heap r).distanceToRanged sqrt maxValue x y ≠ ⊤ ∧
      (∀ q ∈ pre, (heap r).distanceToRanged sqrt maxValue x y <
        (heap q).distanceToRanged sqrt maxValue x y) ∧
      (∀ q ∈ post, (heap r).distanceToRanged sqrt maxValue x y ≤
        (heap q).distanceToRanged sqrt maxValue x y) := by
  induction l using List.reverseRecOn with
  | nil => exact Or.inl ⟨by simp, rfl⟩
  | append_singleton l a ih =>
    rw [closestScanRanged_snoc]
    rcases ih with ⟨hall, hs⟩ | ⟨pre, r, post, hl, hs, hfin, hpre, hpost⟩
    · by_cases hlt : (heap a).distanceToRanged sqrt maxValue x y < ⊤
      · right
        refine ⟨l, a, [], rfl, ?_, ne_of_lt hlt, ?_, by simp⟩
        · simp [hs, closestStepRanged, hlt]
        · intro q hq
          rw [hall q hq]
          exact hlt
      · left
        have htop : (heap a).distanceToRanged sqrt maxValue x y = ⊤ := by
          by_contra hne
          exact hlt (lt_top_iff_ne_top.2 hne)
        refine ⟨?_, ?_⟩
        · intro q hq
          rcases List.mem_append.1 hq with h | h
          · exact hall q h
          · rw [List.mem_singleton.1 h]; exact htop
        · simp [hs, closestStepRanged, htop]
    · right
      by_cases hlt : (heap a).distanceToRanged sqrt maxValue x y <
          (heap r).distanceToRanged sqrt maxValue x y
      · refine ⟨l, a, [], rfl, ?_, ne_top_of_lt hlt, ?_, by simp⟩
        · simp [hs, closestStepRanged, hlt]
        · intro q hq
          rw [hl] at hq
          rcases List.mem_append.1 hq with h | h
          · exact lt_trans hlt (hpre q h)
          · rcases List.mem_cons.1 h with h | h
            · rw [h]; exact hlt
            · exact lt_of_lt_of_le hlt (hpost q h)
      · refine ⟨pre, r, post ++ [a], by simp [hl], ?_, hfin, hpre, ?_⟩
        · simp [hs, closestStepRanged, hlt]
        · intro q hq
          rcases List.mem_append.1 hq with h | h
          · exact hpost q h
          · rw [List.mem_singleton.1 h]; exact not_lt.1 hlt

/-- The outcome of `isClosest` when some member is at a finite distance: the
first member at the least distance is selected. -/
theorem isClosestRanged_of_finite (sqrt : K → K) (maxValue : K) (m : CircleManager K)
    (x y : K) (hfin : ∃ r ∈ m.circles, (m.heap r).distanceToRanged sqrt maxValue x y ≠ ⊤) :
    ∃ pre c post, m.circles = pre ++ c :: post ∧
      m.isClosestRanged sqrt maxValue x y =
        { m with heap := setSelected (resetSelection m.heap m.circles) c true
                 selectedCircle := some c } ∧
      (m.heap c).distanceToRanged sqrt maxValue x y ≠ ⊤ ∧
      (∀ q ∈ pre, (m.heap c).distanceToRanged sqrt maxValue x y <
        (m.heap q).distanceToRanged sqrt maxValue x y) ∧
      (∀ q ∈ post, (m.heap c).distanceToRanged sqrt maxValue x y ≤
        (m.heap q).distanceToRanged sqrt maxValue x y) := by
  rcases closestScanRanged_spec sqrt maxValue m.heap x y m.circles with
    ⟨hall, _⟩ | ⟨pre, c, post, hl, hs, hc, hpre, hpost⟩
  · obtain ⟨r, hr, hne⟩ := hfin
    exact absurd (hall r hr) hne
  · exact ⟨pre, c, post, hl, by simp [CircleManager.isClosestRanged, hs], hc, hpre, hpost⟩

/-- The outcome of `isClosest` when every member is at distance `Infinity`:
every flag is cleared and `selectedCircle` is left as it was. -/
theorem isClosestRanged_of_all_top (sqrt : K → K) (maxValue : K) (m : CircleManager K)
    (x y : K) (hall : ∀ r ∈ m.circles, (m.heap r).distanceToRanged sqrt maxValue x y = ⊤) :
    m.isClosestRanged sqrt maxValue x y =
      { m with heap := resetSelection m.heap m.circles } := by
  rcases closestScanRanged_spec sqrt maxValue m.heap x y m.circles with
    ⟨_, hs⟩ | ⟨pre, c, post, hl, _, hc, _, _⟩
  · simp [CircleManager.isClosestRanged, hs]
  · exact absurd (hall c (by rw [hl]; simp)) hc

/-- When no distance overflows, `isClosest` with the overflow of doubles is the
`isClosest` of exact numbers. -/
theorem isClosestRanged_eq_isClosest (sqrt : K → K) (maxValue : K) (m : CircleManager K)
    (x y : K)
    (hrange : ∀ r ∈ m.circles, ((m.heap r).x - x) ^ 2 + ((m.heap r).y - y) ^ 2 ≤ maxValue) :
    m.isClosestRanged sqrt maxValue x y = m.isClosest sqrt x y := by
  have hscan : closestScanRanged sqrt maxValue m.heap x y m.circles =
      closestScan sqrt m.heap x y m.circles := by
    unfold closestScanRanged closestScan
    apply List.foldl_ext
    intro acc r hr
    simp only [closestStepRanged, closestStep,
      distanceToRanged_of_le sqrt maxValue (m.heap r) x y (hrange r hr)]
  simp only [CircleManager.isClosestRanged, CircleManager.isClosest, hscan]

/-- On a `Set` without repetition with some member at a finite distance,
`isClosest` leaves exactly one member flagged: `selectedCircle`, at the least
distance. -/
theorem isClosestRanged_selects_nearest (sqrt : K → K) (maxValue : K) (m : CircleManager K)
    (x y : K) (hnd : m.circles.Nodup)
    (hfin : ∃ r ∈ m.circles, (m.heap r).distanceToRanged sqrt maxValue x y ≠ ⊤) :
    ∃ c ∈ m.circles,
      (m.isClosestRanged sqrt maxValue x y).circles = m.circles ∧
      selectedOnes (m.isClosestRanged sqrt maxValue x y) = [c] ∧
      (m.isClosestRanged sqrt maxValue x y).selectedCircle = some c ∧
      ∀ q ∈ m.circles,
        ((m.isClosestRanged sqrt maxValue x y).heap c).distanceToRanged sqrt maxValue x y ≤
          ((m.isClosestRanged sqrt maxValue x y).heap q).distanceToRanged sqrt maxValue x y := by
  obtain ⟨pre, c, post, hl, heq, _, hpre, hpost⟩ :=
    isClosestRanged_of_finite sqrt maxValue m x y hfin
  have hc : c ∈ m.circles := by rw [hl]; simp
  have hdist : ∀ r, (setSelected (resetSelection m.heap m.circles) c true r).distanceToRanged
      sqrt maxValue x y = (m.heap r).distanceToRanged sqrt maxValue x y := by
    intro r
    rw [isClosest_heap_apply]
    split_ifs <;> rfl
  refine ⟨c, hc, by rw [heq], ?_, by rw [heq], ?_⟩
  · rw [heq]
    exact filter_eq_singleton m.circles c hnd hc _
      (fun r hr => isClosest_heap_isSelected m.heap m.circles c r hr)
  · intro q hq
    rw [heq]
    simp only [hdist]
    rw [hl] at hq
    rcases List.mem_append.1 hq with h | h
    · exact le_of_lt (hpre q h)
    · rcases List.mem_cons.1 h with h | h
      · rw [h]
      · exact hpost q h

/-! ## Lemmas on `drawCircles`, `updateSelectedCircle` and `moveTowards` -/

theorem drawFold_apply (l : List Ref) (hnd : l.Nodup) (heap : Ref → Circle K) (r : Ref) :
    l.foldl (fun h circle => Function.update h circle (h circle).draw) heap r =
      if r ∈ l then (heap r).draw else heap r := by
  induction l generalizing heap with
  | nil => simp
  | cons a l ih =>
    rw [List.foldl_cons, ih (List.nodup_cons.1 hnd).2]
    have ha : a ∉ l := (List.nodup_cons.1 hnd).1
    by_cases hra : r = a
    · subst hra
      simp [ha]
    · by_cases hrl : r ∈ l <;> simp [hrl, hra, Function.update_noteq hra]

theorem drawFold_isSelected (l : List Ref) (heap : Ref → Circle K) (r : Ref) :
    (l.foldl (fun h circle => Function.update h circle (h circle).draw) heap r).isSelected =
      (heap r).isSelected := by
  induction l generalizing heap with
  | nil => simp
  | cons a l ih =>
    rw [List.foldl_cons, ih]
    by_cases hra : r = a
    · subst hra
      simp [Circle.draw, Circle.updateMoonPosition]
    · simp [Function.update_noteq hra]

theorem moveTowards_isSelected (sqrt : K → K) (c : Circle K) (tx ty speed : K) :
    (c.moveTowards sqrt tx ty speed).isSelected = c.isSelected := by
  unfold Circle.moveTowards
  simp only
  split_ifs <;> rfl

theorem updateSelectedCircle_isSelected (sqrt : K → K) (m : CircleManager K) (x y : K)
    (r : Ref) :
    ((m.updateSelectedCircle sqrt x y).heap r).isSelected = (m.heap r).isSelected := by
  unfold CircleManager.updateSelectedCircle
  cases hsel : m.selectedCircle with
  | none => rfl
  | some c =>
    by_cases hrc : r = c
    · subst hrc
      simp [moveTowards_isSelected]
    · simp [Function.update_noteq hrc]

theorem updateSelectedCircle_circles (sqrt : K → K) (m : CircleManager K) (x y : K) :
    (m.updateSelectedCircle sqrt x y).circles = m.circles ∧
    (m.updateSelectedCircle sqrt x y).selectedCircle = m.selectedCircle := by
  unfold CircleManager.updateSelectedCircle
  cases hsel : m.selectedCircle with
  | none => exact ⟨rfl, hsel⟩
  | some c => exact ⟨rfl, rfl⟩

theorem draw_iterate (c : Circle K) (n : Nat) :
    Circle.draw^[n] c = { c with angle := c.angle + n * c.orbitSpeed } := by
  induction n with
  | zero => simp
  | succ n ih =>
    rw [Function.iterate_succ_apply', ih]
    simp only [Circle.draw, Circle.updateMoonPosition, Nat.cast_succ]
    congr 1
    ring

/-! ## Lemmas on the reachable states of the script -/

theorem isClosest_selectedOnes (sqrt : K → K) (m : CircleManager K) (x y : K)
    (hnd : m.circles.Nodup) (hne : m.circles ≠ []) :
    ∃ c, (m.isClosest sqrt x y).circles = m.circles ∧
      selectedOnes (m.isClosest sqrt x y) = [c] ∧
      (m.isClosest sqrt x y).selectedCircle = some c := by
  obtain ⟨pre, c, post, hl, heq, _, _⟩ := isClosest_of_ne_nil sqrt m x y hne
  have hc : c ∈ m.circles := by rw [hl]; simp
  refine ⟨c, by rw [heq], ?_, by rw [heq]⟩
  rw [heq]
  exact filter_eq_singleton m.circles c hnd hc _
    (fun r hr => isClosest_heap_isSelected m.heap m.circles c r hr)

theorem good_initial (sqrt : K → K) (cw ch : K) : (initial sqrt cw ch).Good := by
  refine ⟨?_, ?_, ?_⟩ <;>
    simp [initial, animate, CircleManager.constructor, CircleManager.updateSelectedCircle,
      CircleManager.drawCircles, selectedOnes]

theorem good_onMousemove (sqrt : K → K) (s : Script K) (x y : K) (hg : s.Good) :
    (onMousemove sqrt s x y).Good := by
  obtain ⟨hnd, hlt, hsel⟩ := hg
  by_cases hne : s.circleManager.circles = []
  · simp only [Script.Good, onMousemove, isClosest_of_nil sqrt s.circleManager x y hne]
    exact ⟨hnd, hlt, hsel⟩
  · obtain ⟨c, h1, h2, h3⟩ := isClosest_selectedOnes sqrt s.circleManager x y hnd hne
    simp only [Script.Good, onMousemove, h1, h2, h3]
    exact ⟨hnd, hlt, rfl⟩

theorem good_onClick (PI : K) (s : Script K) (r1 r2 r3 : K) (color : String) (r5 : K)
    (hg : s.Good) : (onClick PI s r1 r2 r3 color r5).Good := by
  obtain ⟨hnd, hlt, hsel⟩ := hg
  have hfresh : s.fresh ∉ s.circleManager.circles := fun h => lt_irrefl _ (hlt _ h)
  simp only [Script.Good, onClick, CircleManager.addCircle, if_neg hfresh]
  refine ⟨?_, ?_, ?_⟩
  · exact List.Nodup.append hnd (List.nodup_singleton _) (by simpa using hfresh)
  · intro r hr
    rcases List.mem_append.1 hr with h | h
    · exact Nat.lt_succ_of_lt (hlt r h)
    · rw [List.mem_singleton.1 h]; exact Nat.lt_succ_self _
  · rw [← hsel]
    simp only [selectedOnes, List.filter_append]
    have h1 : List.filter (fun r => (Function.update s.circleManager.heap s.fresh
        (Circle.constructor (r1 * s.canvasWidth) (r2 * s.canvasHeight) (r3 * 20 + 10) color r5 PI)
          r).isSelected) s.circleManager.circles =
        List.filter (fun r => (s.circleManager.heap r).isSelected) s.circleManager.circles := by
      apply List.filter_congr
      intro r hr
      have hne : r ≠ s.fresh := fun h => hfresh (h ▸ hr)
      simp [Function.update_noteq hne]
    rw [h1]
    simp [Circle.constructor]

theorem good_animate (sqrt : K → K) (s : Script K) (hg : s.Good) : (animate sqrt s).Good := by
  obtain ⟨hnd, hlt, hsel⟩ := hg
  have hc := updateSelectedCircle_circles sqrt s.circleManager s.cursorX s.cursorY
  refine ⟨?_, ?_, ?_⟩
  · simp only [animate, CircleManager.drawCircles, hc.1]
    exact hnd
  · simp only [animate, CircleManager.drawCircles, hc.1]
    exact hlt
  · simp only [animate, CircleManager.drawCircles, selectedOnes, hc.1, hc.2,
      drawFold_isSelected, updateSelectedCircle_isSelected]
    exact hsel

theorem good_step (sqrt : K → K) (PI : K) (s : Script K) (e : Event K) (hg : s.Good) :
    (step sqrt PI s e).Good := by
  cases e with
  | mousemove x y => exact good_onMousemove sqrt s x y hg
  | click r1 r2 r3 color r5 => exact good_onClick PI s r1 r2 r3 color r5 hg
  | frame => exact good_animate sqrt s hg

theorem good_run (sqrt : K → K) (PI : K) (events : List (Event K)) (s : Script K)
    (hg : s.Good) : (run sqrt PI s events).Good := by
  induction events generalizing s with
  | nil => exact hg
  | cons e events ih => exact ih (step sqrt PI s e) (good_step sqrt PI s e hg)

/-- Once `selectedCircle` is non-null it stays non-null. -/
theorem isSome_step (sqrt : K → K) (PI : K) (s : Script K) (e : Event K)
    (h : s.circleManager.selectedCircle.isSome = true) :
    (step sqrt PI s e).circleManager.selectedCircle.isSome = true := by
  cases e with
  | mousemove x y =>
    by_cases hne : s.circleManager.circles = []
    · simp only [step, onMousemove, isClosest_of_nil sqrt s.circleManager x y hne]
      exact h
    · obtain ⟨pre, c, post, _, heq, _, _⟩ := isClosest_of_ne_nil sqrt s.circleManager x y hne
      simp [step, onMousemove, heq]
  | click r1 r2 r3 color r5 =>
    simp only [step, onClick, CircleManager.addCircle]
    split_ifs <;> exact h
  | frame =>
    simp only [step, animate, CircleManager.drawCircles,
      (updateSelectedCircle_circles sqrt s.circleManager s.cursorX s.cursorY).2]
    exact h

theorem isSome_run (sqrt : K → K) (PI : K) (events : List (Event K)) (s : Script K)
    (h : s.circleManager.selectedCircle.isSome = true) :
    (run sqrt PI s events).circleManager.selectedCircle.isSome = true := by
  induction events generalizing s with
  | nil => exact h
  | cons e events ih => exact ih (step sqrt PI s e) (isSome_step sqrt PI s e h)

theorem run_append (sqrt : K → K) (PI : K) (s : Script K) (pre post : List (Event K)) :
    run sqrt PI s (pre ++ post) = run sqrt PI (run sqrt PI s pre) post := by
  simp [run, List.foldl_append]

/-! ## Lemmas on the geometry of `moveTowards` -/

theorem moveTowards_of_gt (sqrt : K → K) (c : Circle K) (tx ty speed : K)
    (h : 1 < c.distanceTo sqrt tx ty) :
    c.moveTowards sqrt tx ty speed =
      { c with x := c.x + (tx - c.x) / c.distanceTo sqrt tx ty * speed
               y := c.y + (ty - c.y) / c.distanceTo sqrt tx ty * speed } := by
  have harg : (tx - c.x) ^ 2 + (ty - c.y) ^ 2 = (c.x - tx) ^ 2 + (c.y - ty) ^ 2 := by ring
  unfold Circle.moveTowards
  simp only [harg]
  unfold Circle.distanceTo at h ⊢
  rw [if_pos h]

theorem moveTowards_of_le (sqrt : K → K) (c : Circle K) (tx ty speed : K)
    (h : c.distanceTo sqrt tx ty ≤ 1) : c.moveTowards sqrt tx ty speed = c := by
  have harg : (tx - c.x) ^ 2 + (ty - c.y) ^ 2 = (c.x - tx) ^ 2 + (c.y - ty) ^ 2 := by ring
  unfold Circle.moveTowards
  simp only [harg]
  unfold Circle.distanceTo at h
  rw [if_neg (not_lt.2 h)]

theorem sqrt_eq_abs (sqrt : K → K) (hs : IsSqrt sqrt) (v a : K) (hv : v = a * a) :
    sqrt v = |a| := by
  have hv0 : 0 ≤ v := by rw [hv]; exact mul_self_nonneg a
  obtain ⟨h1, h2⟩ := hs v hv0
  have h3 : sqrt v * sqrt v = |a| * |a| := by rw [h2, hv, abs_mul_abs_self]
  exact (mul_self_inj h1 (abs_nonneg a)).1 h3

theorem distanceTo_nonneg (sqrt : K → K) (hs : IsSqrt sqrt) (c : Circle K) (tx ty : K) :
    0 ≤ c.distanceTo sqrt tx ty :=
  (hs _ (add_nonneg (sq_nonneg _) (sq_nonneg _))).1

theorem distanceTo_mul_self (sqrt : K → K) (hs : IsSqrt sqrt) (c : Circle K) (tx ty : K) :
    c.distanceTo sqrt tx ty * c.distanceTo sqrt tx ty = (c.x - tx) ^ 2 + (c.y - ty) ^ 2 :=
  (hs _ (add_nonneg (sq_nonneg _) (sq_nonneg _))).2

/-- One step from a distance above 1 leaves the entity at distance `|d - speed|`. -/
theorem moveTowards_distanceTo (sqrt : K → K) (hs : IsSqrt sqrt) (c : Circle K)
    (tx ty speed : K) (h : 1 < c.distanceTo sqrt tx ty) :
    (c.moveTowards sqrt tx ty speed).distanceTo sqrt tx ty =
      |c.distanceTo sqrt tx ty - speed| := by
  rw [moveTowards_of_gt sqrt c tx ty speed h]
  have hkey := distanceTo_mul_self sqrt hs c tx ty
  generalize c.distanceTo sqrt tx ty = d at h hkey ⊢
  have hd0 : d ≠ 0 := ne_of_gt (lt_trans zero_lt_one h)
  unfold Circle.distanceTo
  apply sqrt_eq_abs sqrt hs
  simp only
  calc (c.x + (tx - c.x) / d * speed - tx) ^ 2 + (c.y + (ty - c.y) / d * speed - ty) ^ 2
      = ((c.x - tx) ^ 2 + (c.y - ty) ^ 2) * (d - speed) ^ 2 / (d * d) := by
        field_simp
        ring
    _ = d * d * (d - speed) ^ 2 / (d * d) := by rw [hkey]
    _ = (d - speed) * (d - speed) := by
        field_simp
        ring

theorem moveTowardsTimes_succ (sqrt : K → K) (tx ty : K) (n : Nat) (c : Circle K) :
    moveTowardsTimes sqrt tx ty (n + 1) c =
      moveTowardsTimes sqrt tx ty n (c.moveTowards sqrt tx ty defaultSpeed) := rfl

theorem moveTowardsTimes_of_le (sqrt : K → K) (tx ty : K) (c : Circle K)
    (h : c.distanceTo sqrt tx ty ≤ 1) (n : Nat) : moveTowardsTimes sqrt tx ty n c = c := by
  induction n with
  | zero => rfl
  | succ n ih => rw [moveTowardsTimes_succ, moveTowards_of_le sqrt c tx ty _ h, ih]

theorem moveTowardsTimes_add (sqrt : K → K) (tx ty : K) (j n : Nat) (c : Circle K) :
    moveTowardsTimes sqrt tx ty (j + n) c =
      moveTowardsTimes sqrt tx ty j (moveTowardsTimes sqrt tx ty n c) := by
  unfold moveTowardsTimes
  rw [Function.iterate_add_apply]

/-- From a distance of at most `2 * N + 1`, at most `N` steps at speed 2 bring
the entity within 1 unit. -/
theorem moveTowardsTimes_reaches (sqrt : K → K) (hs : IsSqrt sqrt) (tx ty : K) (N : Nat) :
    ∀ c : Circle K, c.distanceTo sqrt tx ty ≤ 2 * N + 1 →
      ∃ n, (moveTowardsTimes sqrt tx ty n c).distanceTo sqrt tx ty ≤ 1 := by
  induction N with
  | zero =>
    intro c hc
    exact ⟨0, by simpa using hc⟩
  | succ N ih =>
    intro c hc
    by_cases hle : c.distanceTo sqrt tx ty ≤ 1
    · exact ⟨0, hle⟩
    · have hgt : 1 < c.distanceTo sqrt tx ty := not_le.1 hle
      have hstep := moveTowards_distanceTo sqrt hs c tx ty defaultSpeed hgt
      have hN : (0 : K) ≤ N := Nat.cast_nonneg N
      have hbound : (c.moveTowards sqrt tx ty defaultSpeed).distanceTo sqrt tx ty ≤ 2 * N + 1 := by
        rw [hstep, abs_le]
        push_cast at hc
        simp only [defaultSpeed]
        constructor <;> linarith
      obtain ⟨n, hn⟩ := ih _ hbound
      exact ⟨n + 1, by rw [moveTowardsTimes_succ]; exact hn⟩

theorem isSqrt_real : IsSqrt Real.sqrt :=
  fun v hv => ⟨Real.sqrt_nonneg v, Real.mul_self_sqrt hv⟩

theorem moveTowardsTimes_succ_last (sqrt : K → K) (tx ty : K) (n : Nat) (c : Circle K) :
    moveTowardsTimes sqrt tx ty (n + 1) c =
      (moveTowardsTimes sqrt tx ty n c).moveTowards sqrt tx ty defaultSpeed := by
  unfold moveTowardsTimes
  rw [Function.iterate_succ_apply']

theorem distanceTo_circleAtX (sqrt : K → K) (hs : IsSqrt sqrt) (a tx : K) :
    (circleAtX K a).distanceTo sqrt tx 0 = |a - tx| := by
  unfold Circle.distanceTo
  apply sqrt_eq_abs sqrt hs
  simp only [circleAtX, Circle.constructor]
  ring

/-- On the horizontal axis, left of the target by more than 1, one step adds
`speed` to `x`. -/
theorem moveTowards_circleAtX (sqrt : K → K) (hs : IsSqrt sqrt) (a tx speed : K)
    (h : 1 < tx - a) :
    (circleAtX K a).moveTowards sqrt tx 0 speed = circleAtX K (a + speed) := by
  have hd : (circleAtX K a).distanceTo sqrt tx 0 = tx - a := by
    rw [distanceTo_circleAtX sqrt hs, abs_of_neg (by linarith)]
    ring
  have hne : tx - a ≠ 0 := by linarith
  rw [moveTowards_of_gt sqrt _ _ _ _ (by rw [hd]; exact h), hd]
  simp only [circleAtX, Circle.constructor, Circle.mk.injEq, and_true, true_and]
  constructor
  · field_simp
  · simp

/-! ## Lemmas on the rounding of doubles -/

theorem moveTowardsRounded_id (sqrt : K → K) (c : Circle K) (tx ty speed : K) :
    c.moveTowardsRounded id sqrt tx ty speed = c.moveTowards sqrt tx ty speed := rfl

theorem roundEven_intCast [FloorRing K] (z : Int) : roundEven (z : K) = z := by
  simp [roundEven]

/-- A number whose significand is an integer is its own rounding. -/
theorem roundDouble_of_scaled_int [FloorRing K] (v : K) (z : Int)
    (h : v / (2 : K) ^ (Int.log 2 |v| - 52) = (z : K)) : roundDouble v = v := by
  unfold roundDouble
  split_ifs with h0
  · exact h0.symm
  · rw [h, roundEven_intCast, ← h]
    have hp : (2 : K) ^ (Int.log 2 |v| - 52) ≠ 0 := zpow_ne_zero _ (by norm_num)
    field_simp

/-- An integer below `2 ^ 53` in absolute value is a double. -/
theorem roundDouble_intCast [FloorRing K] (n : Int) (h : |n| < 2 ^ 53) :
    roundDouble (n : K) = n := by
  by_cases h0 : n = 0
  · subst h0; simp [roundDouble]
  have habs : (0 : K) < |(n : K)| := abs_pos.2 (by exact_mod_cast h0)
  have hlog : Int.log 2 |(n : K)| < 53 := by
    rw [← Int.lt_zpow_iff_log_lt (by norm_num) habs]
    have h1 : |(n : K)| = ((|n| : Int) : K) := by push_cast; rfl
    have h2 : ((2 : Nat) : K) ^ (53 : Int) = ((2 ^ 53 : Int) : K) := by norm_num
    rw [h1, h2]
    exact_mod_cast h
  obtain ⟨k, hk⟩ : ∃ k : Nat, Int.log 2 |(n : K)| - 52 = -(k : Int) := by
    refine ⟨(52 - Int.log 2 |(n : K)|).toNat, ?_⟩
    rw [Int.toNat_of_nonneg (by omega)]
    ring
  apply roundDouble_of_scaled_int (n : K) (n * 2 ^ k)
  rw [hk, zpow_neg, zpow_natCast]
  push_cast
  rw [div_eq_mul_inv, inv_inv]

/-- A power of two is a double. -/
theorem roundDouble_two_pow [FloorRing K] (k : Int) :
    roundDouble ((2 : K) ^ k) = (2 : K) ^ k := by
  have hpos : (0 : K) < (2 : K) ^ k := zpow_pos (by norm_num) k
  have hlog : Int.log 2 |(2 : K) ^ k| = k := by
    rw [abs_of_pos hpos]
    have := Int.log_zpow (R := K) (b := 2) (by norm_num) k
    simpa using this
  apply roundDouble_of_scaled_int _ (2 ^ 52)
  rw [hlog, ← zpow_sub₀ (by norm_num : (2 : K) ≠ 0)]
  norm_num

/-- The opposite of a power of two is a double. -/
theorem roundDouble_neg_two_pow [FloorRing K] (k : Int) :
    roundDouble (-(2 : K) ^ k) = -(2 : K) ^ k := by
  have hpos : (0 : K) < (2 : K) ^ k := zpow_pos (by norm_num) k
  have hlog : Int.log 2 |-(2 : K) ^ k| = k := by
    rw [abs_neg, abs_of_pos hpos]
    have := Int.log_zpow (R := K) (b := 2) (by norm_num) k
    simpa using this
  apply roundDouble_of_scaled_int _ (-(2 ^ 52))
  rw [hlog, neg_div, ← zpow_sub₀ (by norm_num : (2 : K) ≠ 0)]
  norm_num

/-- Absorption: the double nearest to `2 ^ 60 - 2` is `2 ^ 60`. -/
theorem roundDouble_absorbs [FloorRing K] : roundDouble ((2 : K) ^ 60 - 2) = (2 : K) ^ 60 := by
  have hpos : (0 : K) < 2 ^ 60 - 2 := by norm_num
  have hlog : Int.log 2 |(2 : K) ^ 60 - 2| = 59 := by
    rw [abs_of_pos hpos]
    apply le_antisymm
    · have h : Int.log 2 ((2 : K) ^ 60 - 2) < 60 := by
        rw [← Int.lt_zpow_iff_log_lt (by norm_num) hpos]
        norm_num
      omega
    · rw [← Int.zpow_le_iff_le_log (by norm_num) hpos]
      norm_num
  have hne : (2 : K) ^ 60 - 2 ≠ 0 := ne_of_gt hpos
  have hscaled : ((2 : K) ^ 60 - 2) / (2 : K) ^ ((59 : Int) - 52) = 2 ^ 53 - 1 / 64 := by
    norm_num
  have hfloor : ⌊((2 : K) ^ 53 - 1 / 64)⌋ = 2 ^ 53 - 1 := by
    rw [Int.floor_eq_iff]
    constructor <;> norm_num
  have hfract : Int.fract ((2 : K) ^ 53 - 1 / 64) = 63 / 64 := by
    rw [Int.fract, hfloor]
    norm_num
  have heven : roundEven ((2 : K) ^ 53 - 1 / 64) = 2 ^ 53 := by
    unfold roundEven
    rw [hfract, hfloor]
    norm_num
  unfold roundDouble
  rw [if_neg hne, hlog, hscaled, heven]
  norm_num

/-- From `(X, 0)` towards `(0, 0)` at speed 2, when the rounding absorbs the
step `X - 2` into `X` and is exact on the other numbers involved, the rounded
`moveTowards` leaves the `Circle` where it is. -/
theorem moveTowardsRounded_absorbed (round sqrt : K → K) (hs : IsSqrt sqrt) (X : K)
    (hX : 1 < X) (h0 : round 0 = 0) (hnegX : round (-X) = -X) (hXX : round (X ^ 2) = X ^ 2)
    (hXr : round X = X) (hm1 : round (-1) = -1) (hm2 : round (-2) = -2)
    (habs : round (X - 2) = X) :
    (circleAtX K X).moveTowardsRounded round sqrt 0 0 defaultSpeed = circleAtX K X := by
  have hXpos : 0 < X := lt_trans zero_lt_one hX
  have hsqrt : sqrt (X ^ 2) = X := by
    rw [sqrt_eq_abs sqrt hs (X ^ 2) X (sq X), abs_of_pos hXpos]
  have hdiv : -X / X = -1 := by field_simp
  have hsub : X + -2 = X - 2 := by ring
  simp only [Circle.moveTowardsRounded, circleAtX, Circle.constructor, defaultSpeed, zero_sub,
    sub_self, hnegX, h0, neg_sq, hXX, ne_eq, OfNat.ofNat_ne_zero, not_false_eq_true,
    zero_pow, add_zero, hsqrt, hXr, gt_iff_lt, hX, ↓reduceIte, hdiv, hm1, neg_one_mul, hm2,
    hsub, habs, zero_div, zero_mul]

/-- On the horizontal axis with integer coordinates, left of the target, a
rounding that is exact on the integers below `2 ^ 53` does not change the step. -/
theorem moveTowardsRounded_circleAtX (round sqrt : K → K) (hs : IsSqrt sqrt)
    (hr : ∀ n : Int, |n| < 2 ^ 53 → round (n : K) = n) (a t : Int) (hat : a ≤ t)
    (ha : |a| < 2 ^ 20) (ht : |t| < 2 ^ 20) :
    (circleAtX K (a : K)).moveTowardsRounded round sqrt t 0 defaultSpeed =
      (circleAtX K (a : K)).moveTowards sqrt t 0 defaultSpeed := by
  obtain ⟨ha1, ha2⟩ := abs_lt.1 ha
  obtain ⟨ht1, ht2⟩ := abs_lt.1 ht
  have hnn : (0 : K) ≤ (t : K) - a := by
    have : ((a : Int) : K) ≤ t := by exact_mod_cast hat
    linarith
  have h0 : round (0 : K) = 0 := by simpa using hr 0 (by norm_num)
  have h1 : round (1 : K) = 1 := by simpa using hr 1 (by norm_num)
  have h2 : round (2 : K) = 2 := by simpa using hr 2 (by norm_num)
  have hd : round ((t : K) - a) = (t : K) - a := by
    have := hr (t - a) (by rw [abs_lt]; constructor <;> omega)
    simpa using this
  have hsq : round (((t : K) - a) ^ 2) = ((t : K) - a) ^ 2 := by
    have hb : |(t - a) ^ 2| < (2 : Int) ^ 53 := by
      rw [abs_of_nonneg (sq_nonneg _)]
      have h3 : t - a < 2 ^ 21 := by omega
      have h4 : 0 ≤ t - a := by omega
      nlinarith
    have := hr ((t - a) ^ 2) hb
    simpa using this
  have hstep : round ((a : K) + 2) = (a : K) + 2 := by
    have := hr (a + 2) (by rw [abs_lt]; constructor <;> omega)
    simpa using this
  have hsqrt : sqrt (((t : K) - a) ^ 2) = (t : K) - a := by
    rw [sqrt_eq_abs sqrt hs _ ((t : K) - a) (sq _), abs_of_nonneg hnn]
  by_cases hgt : 1 < (t : K) - a
  · have hne : (t : K) - a ≠ 0 := by linarith
    simp only [Circle.moveTowardsRounded, Circle.moveTowards, circleAtX, Circle.constructor,
      defaultSpeed, sub_self, hd, h0, hsq, ne_eq, OfNat.ofNat_ne_zero, not_false_eq_true,
      zero_pow, add_zero, hsqrt, gt_iff_lt, hgt, ↓reduceIte, div_self hne, h1, one_mul, h2,
      hstep, zero_div, zero_mul]
  · simp only [Circle.moveTowardsRounded, Circle.moveTowards, circleAtX, Circle.constructor,
      defaultSpeed, sub_self, hd, h0, hsq, ne_eq, OfNat.ofNat_ne_zero, not_false_eq_true,
      zero_pow, add_zero, hsqrt, gt_iff_lt, hgt, ↓reduceIte]

theorem moveTowardsRoundedTimes_succ_last (round sqrt : K → K) (tx ty : K) (n : Nat)
    (c : Circle K) :
    moveTowardsRoundedTimes round sqrt tx ty (n + 1) c =
      (moveTowardsRoundedTimes round sqrt tx ty n c).moveTowardsRounded round sqrt tx ty
        defaultSpeed := by
  unfold moveTowardsRoundedTimes
  rw [Function.iterate_succ_apply']

/-- When every step along the way is computed without rounding error, the
rounded calls go where the exact calls go. -/
theorem moveTowardsRoundedTimes_eq (round sqrt : K → K) (tx ty : K) (c : Circle K)
    (hexact : ∀ k, (moveTowardsTimes sqrt tx ty k c).moveTowardsRounded round sqrt tx ty
      defaultSpeed = (moveTowardsTimes sqrt tx ty k c).moveTowards sqrt tx ty defaultSpeed)
    (n : Nat) :
    moveTowardsRoundedTimes round sqrt tx ty n c = moveTowardsTimes sqrt tx ty n c := by
  induction n with
  | zero => rfl
  | succ n ih =>
    rw [moveTowardsRoundedTimes_succ_last, ih, hexact n, moveTowardsTimes_succ_last]

/-- In exact arithmetic, with the default speed 2 and a fixed target, repeated
calls of `moveTowards` bring the entity within 1 unit of the target, where it
stays. -/
theorem moveTowardsTimes_converges [Archimedean K] (sqrt : K → K) (hs : IsSqrt sqrt)
    (c : Circle K) (tx ty : K) :
    ∃ n, (moveTowardsTimes sqrt tx ty n c).distanceTo sqrt tx ty ≤ 1 ∧
      ∀ k, n ≤ k → moveTowardsTimes sqrt tx ty k c = moveTowardsTimes sqrt tx ty n c := by
  obtain ⟨N, hN⟩ := exists_nat_gt (c.distanceTo sqrt tx ty)
  have hN0 : (0 : K) ≤ N := Nat.cast_nonneg N
  obtain ⟨n, hn⟩ := moveTowardsTimes_reaches sqrt hs tx ty N c (by linarith)
  refine ⟨n, hn, ?_⟩
  intro k hk
  obtain ⟨j, rfl⟩ := Nat.exists_eq_add_of_le hk
  rw [Nat.add_comm, moveTowardsTimes_add, moveTowardsTimes_of_le sqrt tx ty _ hn]

/-! ## Lemmas on the fields fixed by the constructor -/

theorem asBuilt_constructor (x y radius : K) (color : String) (random PI : K) :
    (Circle.constructor x y radius color random PI).AsBuilt :=
  ⟨rfl, rfl, rfl⟩

theorem asBuilt_draw (c : Circle K) (h : c.AsBuilt) : c.draw.AsBuilt := h

theorem asBuilt_moveTowards (sqrt : K → K) (c : Circle K) (tx ty speed : K) (h : c.AsBuilt) :
    (c.moveTowards sqrt tx ty speed).AsBuilt := by
  unfold Circle.moveTowards
  simp only
  split_ifs
  · exact h
  · exact h

theorem asBuilt_drawCircles (m : CircleManager K) (h : ∀ r, (m.heap r).AsBuilt) :
    ∀ r, (m.drawCircles.heap r).AsBuilt := by
  unfold CircleManager.drawCircles
  simp only
  generalize m.heap = heap at h
  induction m.circles generalizing heap with
  | nil => exact h
  | cons a l ih =>
    rw [List.foldl_cons]
    apply ih
    intro r
    by_cases hra : r = a
    · subst hra
      simpa using asBuilt_draw _ (h r)
    · simpa [Function.update_noteq hra] using h r

theorem asBuilt_updateSelectedCircle (sqrt : K → K) (m : CircleManager K) (x y : K)
    (h : ∀ r, (m.heap r).AsBuilt) : ∀ r, ((m.updateSelectedCircle sqrt x y).heap r).AsBuilt := by
  intro r
  unfold CircleManager.updateSelectedCircle
  cases m.selectedCircle with
  | none => exact h r
  | some c =>
    by_cases hrc : r = c
    · subst hrc
      simpa using asBuilt_moveTowards sqrt _ x y defaultSpeed (h r)
    · simpa [Function.update_noteq hrc] using h r

theorem asBuilt_isClosest (sqrt : K → K) (m : CircleManager K) (x y : K)
    (h : ∀ r, (m.heap r).AsBuilt) : ∀ r, ((m.isClosest sqrt x y).heap r).AsBuilt := by
  intro r
  by_cases hne : m.circles = []
  · rw [isClosest_of_nil sqrt m x y hne]
    exact h r
  · obtain ⟨pre, c, post, _, heq, _, _⟩ := isClosest_of_ne_nil sqrt m x y hne
    rw [heq]
    simp only [isClosest_heap_apply]
    split_ifs
    · exact h r
    · exact h r
    · exact h r

theorem asBuilt_step (sqrt : K → K) (PI : K) (s : Script K) (e : Event K)
    (h : ∀ r, (s.circleManager.heap r).AsBuilt) :
    ∀ r, ((step sqrt PI s e).circleManager.heap r).AsBuilt := by
  cases e with
  | mousemove x y => exact asBuilt_isClosest sqrt s.circleManager x y h
  | click r1 r2 r3 color r5 =>
    intro r
    have hheap : (step sqrt PI s (Event.click r1 r2 r3 color r5)).circleManager.heap =
        Function.update s.circleManager.heap s.fresh
          (Circle.constructor (r1 * s.canvasWidth) (r2 * s.canvasHeight) (r3 * 20 + 10)
            color r5 PI) := by
      simp only [step, onClick, CircleManager.addCircle]
      split_ifs <;> rfl
    rw [hheap]
    by_cases hr : r = s.fresh
    · subst hr
      simpa using asBuilt_constructor _ _ _ _ _ _
    · simpa [Function.update_noteq hr] using h r
  | frame =>
    exact asBuilt_drawCircles _
      (asBuilt_updateSelectedCircle sqrt s.circleManager s.cursorX s.cursorY h)

theorem asBuilt_run (sqrt : K → K) (PI cw ch : K) (events : List (Event K)) :
    ∀ r, ((run sqrt PI (initial sqrt cw ch) events).circleManager.heap r).AsBuilt := by
  have hgen : ∀ (s : Script K), (∀ r, (s.circleManager.heap r).AsBuilt) →
      ∀ r, ((run sqrt PI s events).circleManager.heap r).AsBuilt := by
    induction events with
    | nil => exact fun s h => h
    | cons e events ih => exact fun s h => ih (step sqrt PI s e) (asBuilt_step sqrt PI s e h)
  apply hgen
  apply asBuilt_drawCircles
  apply asBuilt_updateSelectedCircle
  intro r
  exact asBuilt_constructor _ _ _ _ _ _

/-! ## The image fit -/

/-- C6: for an image of positive width and height and a canvas of positive
width and height, the rectangle computed by the `onload` handler keeps the
aspect ratio of the image, lies inside the canvas, touches the canvas in at
least one dimension, and is centred: the offsets are half of what is left over
and are not negative. -/
theorem imgOnload_fits (w h cw ch : K) (hw : 0 < w) (hh : 0 < h) (hcw : 0 < cw) (hch : 0 < ch) :
    (imgOnload w h cw ch).newWidth / (imgOnload w h cw ch).newHeight = w / h ∧
    (imgOnload w h cw ch).newWidth ≤ cw ∧
    (imgOnload w h cw ch).newHeight ≤ ch ∧
    ((imgOnload w h cw ch).newWidth = cw ∨ (imgOnload w h cw ch).newHeight = ch) ∧
    (imgOnload w h cw ch).offsetX = (cw - (imgOnload w h cw ch).newWidth) / 2 ∧
    0 ≤ (imgOnload w h cw ch).offsetX ∧
    (imgOnload w h cw ch).offsetY = (ch - (imgOnload w h cw ch).newHeight) / 2 ∧
    0 ≤ (imgOnload w h cw ch).offsetY := by
  have hr : 0 < w / h := div_pos hw hh
  by_cases hgt : cw / (w / h) > ch
  · have hle : ch * (w / h) ≤ cw := le_of_lt ((lt_div_iff₀ hr).1 hgt)
    have hratio : ch * (w / h) / ch = w / h := by field_simp; ring
    simp only [imgOnload, if_pos hgt]
    refine ⟨hratio, hle, le_refl _, Or.inr trivial, trivial, ?_, trivial, ?_⟩
    · linarith
    · simp
  · have hle : cw / (w / h) ≤ ch := not_lt.1 hgt
    have hratio : cw / (cw / (w / h)) = w / h := by field_simp; ring
    simp only [imgOnload, if_neg hgt]
    refine ⟨hratio, le_refl _, hle, Or.inl trivial, trivial, ?_, trivial, ?_⟩
    · simp
    · linarith

/-- The witness of C6: a 200 x 100 image on a 300 x 300 canvas is drawn 300 wide
and 150 high, 75 below the top edge. -/
theorem imgOnload_fits_witness :
    ((imgOnload (200 : ℚ) 100 300 300).newWidth / (imgOnload (200 : ℚ) 100 300 300).newHeight
        = 200 / 100 ∧
      (imgOnload (200 : ℚ) 100 300 300).newWidth ≤ 300 ∧
      (imgOnload (200 : ℚ) 100 300 300).newHeight ≤ 300 ∧
      ((imgOnload (200 : ℚ) 100 300 300).newWidth = 300 ∨
        (imgOnload (200 : ℚ) 100 300 300).newHeight = 300) ∧
      (imgOnload (200 : ℚ) 100 300 300).offsetX
        = (300 - (imgOnload (200 : ℚ) 100 300 300).newWidth) / 2 ∧
      0 ≤ (imgOnload (200 : ℚ) 100 300 300).offsetX ∧
      (imgOnload (200 : ℚ) 100 300 300).offsetY
        = (300 - (imgOnload (200 : ℚ) 100 300 300).newHeight) / 2 ∧
      0 ≤ (imgOnload (200 : ℚ) 100 300 300).offsetY) ∧
    (imgOnload (200 : ℚ) 100 300 300).newWidth = 300 ∧
    (imgOnload (200 : ℚ) 100 300 300).newHeight = 150 ∧
    (imgOnload (200 : ℚ) 100 300 300).offsetX = 0 ∧
    (imgOnload (200 : ℚ) 100 300 300).offsetY = 75 :=
  ⟨imgOnload_fits 200 100 300 300 (by norm_num) (by norm_num) (by norm_num) (by norm_num),
    by norm_num [imgOnload], by norm_num [imgOnload], by norm_num [imgOnload],
    by norm_num [imgOnload]⟩

/-! ## Selection of the nearest entity -/

/-- C1, at the failing input: the registry holds one entity, at `(10^200, 0)`;
its `distanceTo(0, 0)` overflows to `Infinity`, which is not below the initial
`minDistance`, and after `isClosest(0, 0)` no entity has `isSelected == true`
and `selectedCircle` is `null`. -/
theorem isClosest_overflow_selects_nobody :
    (farRegistry ℝ).circles = [0] ∧
    ((farRegistry ℝ).heap 0).x = 10 ^ 200 ∧
    ((farRegistry ℝ).heap 0).y = 0 ∧
    ((farRegistry ℝ).heap 0).distanceToRanged Real.sqrt (2 ^ 1024 - 2 ^ 971) 0 0 = ⊤ ∧
    ((farRegistry ℝ).isClosestRanged Real.sqrt (2 ^ 1024 - 2 ^ 971) 0 0).circles = [0] ∧
    selectedOnes ((farRegistry ℝ).isClosestRanged Real.sqrt (2 ^ 1024 - 2 ^ 971) 0 0) = [] ∧
    ((farRegistry ℝ).isClosestRanged Real.sqrt (2 ^ 1024 - 2 ^ 971) 0 0).selectedCircle
      = none := by
  have hcircles : (farRegistry ℝ).circles = [0] := by
    simp [farRegistry, CircleManager.addCircle, CircleManager.constructor]
  have hheap : (farRegistry ℝ).heap = farHeap ℝ := by
    simp [farRegistry, CircleManager.addCircle, CircleManager.constructor]
  have hsel : (farRegistry ℝ).selectedCircle = none := by
    simp [farRegistry, CircleManager.addCircle, CircleManager.constructor]
  have htop : ∀ r, ((farRegistry ℝ).heap r).distanceToRanged Real.sqrt
      (2 ^ 1024 - 2 ^ 971) 0 0 = ⊤ := by
    intro r
    apply distanceToRanged_of_gt
    rw [hheap]
    norm_num [farHeap, Circle.constructor]
  have hres := isClosestRanged_of_all_top Real.sqrt (2 ^ 1024 - 2 ^ 971) (farRegistry ℝ) 0 0
    (fun r _ => htop r)
  refine ⟨hcircles, ?_, ?_, htop 0, ?_, ?_, ?_⟩
  · simp [hheap, farHeap, Circle.constructor]
  · simp [hheap, farHeap, Circle.constructor]
  · rw [hres]; exact hcircles
  · rw [hres]
    simp [selectedOnes, hcircles, resetSelection_apply]
  · rw [hres]; exact hsel

/-- C8, at the failing input: the registry holds two entities, both at
`(10^200, 0)`; their `distanceTo(0, 0)` are the same, `Infinity`, the least
distance there is, and after `isClosest(0, 0)` neither is selected:
`selectedCircle` is `null`. -/
theorem isClosest_overflow_tie_selects_nobody :
    (farPair ℝ).circles = [0, 1] ∧
    ((farPair ℝ).heap 0).distanceToRanged Real.sqrt (2 ^ 1024 - 2 ^ 971) 0 0 = ⊤ ∧
    ((farPair ℝ).heap 1).distanceToRanged Real.sqrt (2 ^ 1024 - 2 ^ 971) 0 0 = ⊤ ∧
    selectedOnes ((farPair ℝ).isClosestRanged Real.sqrt (2 ^ 1024 - 2 ^ 971) 0 0) = [] ∧
    ((farPair ℝ).isClosestRanged Real.sqrt (2 ^ 1024 - 2 ^ 971) 0 0).selectedCircle = none := by
  have hcircles : (farPair ℝ).circles = [0, 1] := by
    simp [farPair, farRegistry, CircleManager.addCircle, CircleManager.constructor]
  have hheap : (farPair ℝ).heap = farHeap ℝ := by
    simp [farPair, farRegistry, CircleManager.addCircle, CircleManager.constructor]
  have hsel : (farPair ℝ).selectedCircle = none := by
    simp [farPair, farRegistry, CircleManager.addCircle, CircleManager.constructor]
  have htop : ∀ r, ((farPair ℝ).heap r).distanceToRanged Real.sqrt
      (2 ^ 1024 - 2 ^ 971) 0 0 = ⊤ := by
    intro r
    apply distanceToRanged_of_gt
    rw [hheap]
    norm_num [farHeap, Circle.constructor]
  have hres := isClosestRanged_of_all_top Real.sqrt (2 ^ 1024 - 2 ^ 971) (farPair ℝ) 0 0
    (fun r _ => htop r)
  refine ⟨hcircles, htop 0, htop 1, ?_, ?_⟩
  · rw [hres]
    simp [selectedOnes, hcircles, resetSelection_apply]
  · rw [hres]; exact hsel

/-- The scenario of the specification, within the range of doubles: with
entities at `(0, 0)` and `(100, 100)`, `isClosest(1, 1)` selects the entity at
`(0, 0)`, and `isClosest(50, 50)`, from where both are equally far, selects it
too, as the one inserted first. -/
theorem isClosestRanged_scenario :
    (twoCircles ℝ).circles = [0, 1] ∧
    ((twoCircles ℝ).heap 0).x = 0 ∧ ((twoCircles ℝ).heap 0).y = 0 ∧
    ((twoCircles ℝ).heap 1).x = 100 ∧ ((twoCircles ℝ).heap 1).y = 100 ∧
    ((twoCircles ℝ).isClosestRanged Real.sqrt (2 ^ 1024 - 2 ^ 971) 1 1).selectedCircle
      = some 0 ∧
    ((twoCircles ℝ).heap 0).distanceToRanged Real.sqrt (2 ^ 1024 - 2 ^ 971) 50 50 =
      ((twoCircles ℝ).heap 1).distanceToRanged Real.sqrt (2 ^ 1024 - 2 ^ 971) 50 50 ∧
    ((twoCircles ℝ).isClosestRanged Real.sqrt (2 ^ 1024 - 2 ^ 971) 50 50).selectedCircle
      = some 0 := by
  have hcircles : (twoCircles ℝ).circles = [0, 1] := by
    simp [twoCircles, CircleManager.addCircle, CircleManager.constructor]
  have hrange : ∀ x y : ℝ, 0 ≤ x → x ≤ 100 → 0 ≤ y → y ≤ 100 → ∀ r ∈ (twoCircles ℝ).circles,
      (((twoCircles ℝ).heap r).x - x) ^ 2 + (((twoCircles ℝ).heap r).y - y) ^ 2 ≤
        2 ^ 1024 - 2 ^ 971 := by
    intro x y hx0 hx1 hy0 hy1 r _
    have hbig : (20000 : ℝ) ≤ 2 ^ 1024 - 2 ^ 971 := by norm_num
    have hheap : (twoCircles ℝ).heap = twoHeap ℝ := by
      simp [twoCircles, CircleManager.addCircle, CircleManager.constructor]
    refine le_trans ?_ hbig
    rw [hheap]
    by_cases hr : r = 0
    · simp only [twoHeap, if_pos hr, Circle.constructor]
      nlinarith
    · simp only [twoHeap, if_neg hr, Circle.constructor]
      nlinarith
  refine ⟨hcircles, ?_, ?_, ?_, ?_, ?_, ?_, ?_⟩
  · simp [twoCircles, CircleManager.addCircle, CircleManager.constructor, twoHeap,
      Circle.constructor]
  · simp [twoCircles, CircleManager.addCircle, CircleManager.constructor, twoHeap,
      Circle.constructor]
  · simp [twoCircles, CircleManager.addCircle, CircleManager.constructor, twoHeap,
      Circle.constructor]
  · simp [twoCircles, CircleManager.addCircle, CircleManager.constructor, twoHeap,
      Circle.constructor]
  · rw [isClosestRanged_eq_isClosest Real.sqrt _ _ 1 1
      (hrange 1 1 (by norm_num) (by norm_num) (by norm_num) (by norm_num))]
    norm_num [twoCircles, CircleManager.addCircle, CircleManager.constructor, twoHeap,
      Circle.constructor, CircleManager.isClosest, closestScan, closestStep, Circle.distanceTo,
      WithTop.coe_lt_top, WithTop.coe_lt_coe]
  · rw [distanceToRanged_of_le Real.sqrt _ _ 50 50
        (hrange 50 50 (by norm_num) (by norm_num) (by norm_num) (by norm_num) 0
          (by rw [hcircles]; simp)),
      distanceToRanged_of_le Real.sqrt _ _ 50 50
        (hrange 50 50 (by norm_num) (by norm_num) (by norm_num) (by norm_num) 1
          (by rw [hcircles]; simp))]
    norm_num [twoCircles, CircleManager.addCircle, CircleManager.constructor, twoHeap,
      Circle.constructor, Circle.distanceTo]
  · rw [isClosestRanged_eq_isClosest Real.sqrt _ _ 50 50
      (hrange 50 50 (by norm_num) (by norm_num) (by norm_num) (by norm_num))]
    norm_num [twoCircles, CircleManager.addCircle, CircleManager.constructor, twoHeap,
      Circle.constructor, CircleManager.isClosest, closestScan, closestStep, Circle.distanceTo,
      WithTop.coe_lt_top, WithTop.coe_lt_coe]

/-- C7: on an empty registry with no selection, `isClosest(x, y)` returns
normally and changes nothing (`selectedCircle` stays `null`), and the
`updateSelectedCircle(x, y)` that follows changes nothing either. -/
theorem isClosest_empty_noop (sqrt : K → K) (m : CircleManager K) (x y : K)
    (hnil : m.circles = []) (hsel : m.selectedCircle = none) :
    m.isClosest sqrt x y = m ∧
    (m.isClosest sqrt x y).selectedCircle = none ∧
    (m.isClosest sqrt x y).updateSelectedCircle sqrt x y = m := by
  rw [isClosest_of_nil sqrt m x y hnil]
  refine ⟨rfl, hsel, ?_⟩
  simp [CircleManager.updateSelectedCircle, hsel]

/-- The witness of C7: `isClosest(5, 5)` on an empty registry. -/
theorem isClosest_empty_noop_witness :
    (emptyRegistry ℝ).circles = [] ∧ (emptyRegistry ℝ).selectedCircle = none ∧
    (emptyRegistry ℝ).isClosest Real.sqrt 5 5 = emptyRegistry ℝ ∧
    ((emptyRegistry ℝ).isClosest Real.sqrt 5 5).selectedCircle = none ∧
    ((emptyRegistry ℝ).isClosest Real.sqrt 5 5).updateSelectedCircle Real.sqrt 5 5 =
      emptyRegistry ℝ :=
  ⟨rfl, rfl, isClosest_empty_noop Real.sqrt (emptyRegistry ℝ) 5 5 rfl rfl⟩

/-! ## Drawing -/

/-- C9: one call of `drawCircles()` draws every member once: the angle of every
member has advanced by its `orbitSpeed`, which is 0.02 for an object with the
fields the constructor gave it, and no other field of any object has changed,
nor the membership, nor `selectedCircle`; for an entity built by the
constructor, after any number `n` of `draw()` calls `orbitSpeed` is still 0.02,
`orbitRadius == radius + 10` still holds, and the angle has advanced by `n`
times 0.02; and in every state the script can reach, the `Set` has no
repetition and every object has the fields the constructor gave it. -/
theorem drawCircles_draws_each_once (m : CircleManager K) (hnd : m.circles.Nodup) :
    m.drawCircles.circles = m.circles ∧
    m.drawCircles.selectedCircle = m.selectedCircle ∧
    (∀ r ∈ m.circles,
      m.drawCircles.heap r = { m.heap r with angle := (m.heap r).angle + (m.heap r).orbitSpeed }) ∧
    (∀ r, r ∉ m.circles → m.drawCircles.heap r = m.heap r) ∧
    (∀ r ∈ m.circles, (m.heap r).AsBuilt →
      (m.drawCircles.heap r).angle = (m.heap r).angle + 0.02 ∧
      (m.drawCircles.heap r).orbitRadius = (m.drawCircles.heap r).radius + 10) ∧
    (∀ (x y radius : K) (color : String) (random PI : K) (n : Nat),
      Circle.draw^[n] (Circle.constructor x y radius color random PI) =
        { Circle.constructor x y radius color random PI with
          angle := random * PI * 2 + n * 0.02 } ∧
      (Circle.draw^[n] (Circle.constructor x y radius color random PI)).orbitSpeed = 0.02 ∧
      (Circle.draw^[n] (Circle.constructor x y radius color random PI)).orbitRadius =
        (Circle.draw^[n] (Circle.constructor x y radius color random PI)).radius + 10) ∧
    ∀ (sqrt : K → K) (PI cw ch : K) (events : List (Event K)),
      (run sqrt PI (initial sqrt cw ch) events).circleManager.circles.Nodup ∧
      ∀ r, ((run sqrt PI (initial sqrt cw ch) events).circleManager.heap r).AsBuilt := by
  have hin : ∀ r ∈ m.circles,
      m.drawCircles.heap r =
        { m.heap r with angle := (m.heap r).angle + (m.heap r).orbitSpeed } := by
    intro r hr
    simp only [CircleManager.drawCircles, drawFold_apply m.circles hnd, if_pos hr]
    rfl
  refine ⟨rfl, rfl, hin, ?_, ?_, ?_, ?_⟩
  · intro r hr
    simp only [CircleManager.drawCircles, drawFold_apply m.circles hnd, if_neg hr]
  · intro r hr hb
    rw [hin r hr]
    exact ⟨by rw [hb.1], hb.2.2⟩
  · intro x y radius color random PI n
    rw [draw_iterate]
    exact ⟨rfl, rfl, rfl⟩
  · intro sqrt PI cw ch events
    exact ⟨(good_run sqrt PI events _ (good_initial sqrt cw ch)).1,
      asBuilt_run sqrt PI cw ch events⟩

/-- The witness of C9: three entities are added, then `drawCircles()` runs once;
each of the three angles, 0 before, is 0.02 after, and nothing else changes. -/
theorem drawCircles_draws_each_once_witness :
    (threeCircles ℚ).circles = [0, 1, 2] ∧
    (threeCircles ℚ).circles.Nodup ∧
    (threeCircles ℚ).drawCircles.circles = [0, 1, 2] ∧
    (threeCircles ℚ).drawCircles.selectedCircle = (threeCircles ℚ).selectedCircle ∧
    (∀ r, r ∉ (threeCircles ℚ).circles →
      (threeCircles ℚ).drawCircles.heap r = (threeCircles ℚ).heap r) ∧
    ((threeCircles ℚ).heap 0).angle = 0 ∧
    ((threeCircles ℚ).heap 1).angle = 0 ∧
    ((threeCircles ℚ).heap 2).angle = 0 ∧
    (threeCircles ℚ).drawCircles.heap 0 = { (threeCircles ℚ).heap 0 with angle := 0.02 } ∧
    (threeCircles ℚ).drawCircles.heap 1 = { (threeCircles ℚ).heap 1 with angle := 0.02 } ∧
    (threeCircles ℚ).drawCircles.heap 2 = { (threeCircles ℚ).heap 2 with angle := 0.02 } := by
  have hcircles : (threeCircles ℚ).circles = [0, 1, 2] := by
    simp [threeCircles, twoCircles, CircleManager.addCircle, CircleManager.constructor]
  have hheap : (threeCircles ℚ).heap = twoHeap ℚ := by
    simp [threeCircles, twoCircles, CircleManager.addCircle, CircleManager.constructor]
  have hnd : (threeCircles ℚ).circles.Nodup := by rw [hcircles]; decide
  have hmain := drawCircles_draws_each_once (threeCircles ℚ) hnd
  refine ⟨hcircles, hnd, by rw [hmain.1, hcircles], hmain.2.1, hmain.2.2.2.1, ?_, ?_, ?_,
    ?_, ?_, ?_⟩
  · simp [hheap, twoHeap, Circle.constructor]
  · simp [hheap, twoHeap, Circle.constructor]
  · simp [hheap, twoHeap, Circle.constructor]
  · rw [hmain.2.2.1 0 (by rw [hcircles]; decide)]
    simp [hheap, twoHeap, Circle.constructor]
  · rw [hmain.2.2.1 1 (by rw [hcircles]; decide)]
    simp [hheap, twoHeap, Circle.constructor]
  · rw [hmain.2.2.1 2 (by rw [hcircles]; decide)]
    simp [hheap, twoHeap, Circle.constructor]

/-! ## The invariant of the registry -/

/-- C4, as stated, fails: the registry holds `0` and `1` with `0` selected and
satisfies the invariant; `addCircle` of the `Circle` behind `2`, whose
`isSelected` is `true`, gives a registry with two members flagged. -/
theorem registryInv_addCircle_counterexample :
    RegistryInv (pickedRegistry ℚ) ∧
    ((pickedRegistry ℚ).heap 2).isSelected = true ∧
    ((pickedRegistry ℚ).addCircle 2).circles = [0, 1, 2] ∧
    selectedOnes ((pickedRegistry ℚ).addCircle 2) = [0, 2] ∧
    ¬ RegistryInv ((pickedRegistry ℚ).addCircle 2) := by
  refine ⟨?_, ?_, ?_, ?_, ?_⟩
  · intro s hs
    simp only [pickedRegistry, Option.some.injEq] at hs
    subst hs
    simp [pickedRegistry, setSelected, twoHeap, Circle.constructor]
  · simp [pickedRegistry, setSelected]
  · simp [pickedRegistry, CircleManager.addCircle]
  · simp [pickedRegistry, CircleManager.addCircle, selectedOnes, setSelected, twoHeap,
      Circle.constructor, List.filter]
  · intro h
    have h2 := (h 0 (by simp [pickedRegistry, CircleManager.addCircle])).2.2 2
      (by simp [pickedRegistry, CircleManager.addCircle]) (by decide)
    simp [pickedRegistry, CircleManager.addCircle, setSelected] at h2

/-- C4, amended: the invariant holds for a new `CircleManager` and is preserved
by `updateSelectedCircle`, by `drawCircles`, by `addCircle(entity)` when nothing
is selected, or the entity is a member already, or its `isSelected` is `false`
(as the constructor of `Circle` sets it), and by `isClosest(x, y)` when the
registry is empty, or nothing is selected, or some member is at a finite
distance from `(x, y)`. -/
theorem registryInv_preserved (sqrt : K → K) (maxValue : K) (m : CircleManager K)
    (hinv : RegistryInv m) :
    (∀ heap : Ref → Circle K, RegistryInv (CircleManager.constructor heap)) ∧
    (∀ r, (m.selectedCircle = none ∨ r ∈ m.circles ∨ (m.heap r).isSelected = false) →
      RegistryInv (m.addCircle r)) ∧
    (∀ x y, (m.circles = [] ∨ m.selectedCircle = none ∨
        ∃ r ∈ m.circles, (m.heap r).distanceToRanged sqrt maxValue x y ≠ ⊤) →
      RegistryInv (m.isClosestRanged sqrt maxValue x y)) ∧
    (∀ x y, RegistryInv (m.updateSelectedCircle sqrt x y)) ∧
    RegistryInv m.drawCircles := by
  refine ⟨?_, ?_, ?_, ?_, ?_⟩
  · intro heap s hs
    simp [CircleManager.constructor] at hs
  · intro r hr s hs
    by_cases hmem : r ∈ m.circles
    · simp only [CircleManager.addCircle, if_pos hmem] at hs ⊢
      exact hinv s hs
    · simp only [CircleManager.addCircle, if_neg hmem] at hs ⊢
      obtain ⟨h1, h2, h3⟩ := hinv s hs
      refine ⟨List.mem_append_left _ h1, h2, ?_⟩
      intro q hq hqs
      rcases List.mem_append.1 hq with h | h
      · exact h3 q h hqs
      · rw [List.mem_singleton.1 h]
        rcases hr with hr | hr | hr
        · rw [hr] at hs; cases hs
        · exact absurd hr hmem
        · exact hr
  · intro x y hcond
    by_cases hfin : ∃ r ∈ m.circles, (m.heap r).distanceToRanged sqrt maxValue x y ≠ ⊤
    · obtain ⟨pre, c, post, hl, heq, _, _, _⟩ :=
        isClosestRanged_of_finite sqrt maxValue m x y hfin
      rw [heq]
      intro s hs
      simp only [Option.some.injEq] at hs
      subst hs
      have hc : c ∈ m.circles := by rw [hl]; simp
      refine ⟨hc, ?_, ?_⟩
      · simp [isClosest_heap_isSelected m.heap m.circles c c hc]
      · intro q hq hqc
        simp [isClosest_heap_isSelected m.heap m.circles c q hq, hqc]
    · have hall : ∀ r ∈ m.circles, (m.heap r).distanceToRanged sqrt maxValue x y = ⊤ := by
        intro r hr
        by_contra hne
        exact hfin ⟨r, hr, hne⟩
      rw [isClosestRanged_of_all_top sqrt maxValue m x y hall]
      intro s hs
      simp only at hs
      rcases hcond with hnil | hnone | hsome
      · have h1 := (hinv s hs).1
        rw [hnil] at h1
        cases h1
      · rw [hnone] at hs; cases hs
      · exact absurd hsome hfin
  · intro x y s hs
    rw [(updateSelectedCircle_circles sqrt m x y).2] at hs
    obtain ⟨h1, h2, h3⟩ := hinv s hs
    rw [(updateSelectedCircle_circles sqrt m x y).1]
    refine ⟨h1, by rw [updateSelectedCircle_isSelected]; exact h2, ?_⟩
    intro q hq hqs
    rw [updateSelectedCircle_isSelected]
    exact h3 q hq hqs
  · intro s hs
    obtain ⟨h1, h2, h3⟩ := hinv s hs
    refine ⟨h1, ?_, ?_⟩
    · simp only [CircleManager.drawCircles, drawFold_isSelected]
      exact h2
    · intro q hq hqs
      simp only [CircleManager.drawCircles, drawFold_isSelected]
      exact h3 q hq hqs

/-- The witness of C4: the registry holding `0` and `1` with `0` selected. -/
theorem registryInv_preserved_witness :
    RegistryInv (pickedRegistry ℝ) ∧
    (pickedRegistry ℝ).selectedCircle = some 0 ∧
    ((∀ heap : Ref → Circle ℝ, RegistryInv (CircleManager.constructor heap)) ∧
    (∀ r, ((pickedRegistry ℝ).selectedCircle = none ∨ r ∈ (pickedRegistry ℝ).circles ∨
        ((pickedRegistry ℝ).heap r).isSelected = false) →
      RegistryInv ((pickedRegistry ℝ).addCircle r)) ∧
    (∀ x y, ((pickedRegistry ℝ).circles = [] ∨ (pickedRegistry ℝ).selectedCircle = none ∨
        ∃ r ∈ (pickedRegistry ℝ).circles,
          ((pickedRegistry ℝ).heap r).distanceToRanged Real.sqrt (2 ^ 1024 - 2 ^ 971) x y ≠ ⊤) →
      RegistryInv ((pickedRegistry ℝ).isClosestRanged Real.sqrt (2 ^ 1024 - 2 ^ 971) x y)) ∧
    (∀ x y, RegistryInv ((pickedRegistry ℝ).updateSelectedCircle Real.sqrt x y)) ∧
    RegistryInv (pickedRegistry ℝ).drawCircles) := by
  have hinv : RegistryInv (pickedRegistry ℝ) := by
    intro s hs
    simp only [pickedRegistry, Option.some.injEq] at hs
    subst hs
    simp [pickedRegistry, setSelected, twoHeap, Circle.constructor]
  exact ⟨hinv, rfl,
    registryInv_preserved Real.sqrt (2 ^ 1024 - 2 ^ 971) (pickedRegistry ℝ) hinv⟩

/-- What the amended C4 leaves out: with `0` selected among the entities at
`(0, 0)` and `(100, 100)`, `isClosest(10^200, 0)` finds every distance
`Infinity`, clears every flag and keeps `selectedCircle`: the invariant is
broken. -/
theorem isClosest_overflow_breaks_registryInv :
    RegistryInv (pickedRegistry ℝ) ∧
    ((pickedRegistry ℝ).isClosestRanged Real.sqrt (2 ^ 1024 - 2 ^ 971)
      (10 ^ 200) 0).selectedCircle = some 0 ∧
    selectedOnes ((pickedRegistry ℝ).isClosestRanged Real.sqrt (2 ^ 1024 - 2 ^ 971)
      (10 ^ 200) 0) = [] ∧
    ¬ RegistryInv ((pickedRegistry ℝ).isClosestRanged Real.sqrt (2 ^ 1024 - 2 ^ 971)
      (10 ^ 200) 0) := by
  have hinv : RegistryInv (pickedRegistry ℝ) := by
    intro s hs
    simp only [pickedRegistry, Option.some.injEq] at hs
    subst hs
    simp [pickedRegistry, setSelected, twoHeap, Circle.constructor]
  have htop : ∀ r ∈ (pickedRegistry ℝ).circles,
      ((pickedRegistry ℝ).heap r).distanceToRanged Real.sqrt (2 ^ 1024 - 2 ^ 971)
        (10 ^ 200) 0 = ⊤ := by
    intro r hr
    apply distanceToRanged_of_gt
    have hr01 : r = 0 ∨ r = 1 := by simpa [pickedRegistry] using hr
    rcases hr01 with h | h
    · subst h
      norm_num [pickedRegistry, setSelected, twoHeap, Circle.constructor]
    · subst h
      norm_num [pickedRegistry, setSelected, twoHeap, Circle.constructor]
  have hres := isClosestRanged_of_all_top Real.sqrt (2 ^ 1024 - 2 ^ 971) (pickedRegistry ℝ)
    (10 ^ 200) 0 htop
  refine ⟨hinv, by rw [hres]; rfl, ?_, ?_⟩
  · rw [hres]
    simp [selectedOnes, pickedRegistry, resetSelection_apply]
  · intro h
    have h1 := (h 0 (by rw [hres]; rfl)).2.1
    rw [hres] at h1
    simp [resetSelection_apply, pickedRegistry] at h1

/-! ## Selection in the running script -/

/-- C5, as stated, fails: after a `mousemove` on the empty registry and then a
`click`, the registry holds one entity, a pointer-move event has occurred, and
no entity has `isSelected == true`. -/
theorem one_selected_counterexample :
    (run Real.sqrt Real.pi (initial Real.sqrt 800 600) (moveThenClick ℝ)).circleManager.circles
      = [0] ∧
    (∃ e ∈ moveThenClick ℝ, e.isMousemove = true) ∧
    selectedOnes (run Real.sqrt Real.pi (initial Real.sqrt 800 600)
      (moveThenClick ℝ)).circleManager = [] ∧
    (run Real.sqrt Real.pi (initial Real.sqrt 800 600)
      (moveThenClick ℝ)).circleManager.selectedCircle = none := by
  refine ⟨?_, ⟨Event.mousemove 5 5, by simp [moveThenClick], rfl⟩, ?_, ?_⟩ <;>
    simp [run, moveThenClick, step, initial, animate, onMousemove, onClick,
      CircleManager.constructor, CircleManager.updateSelectedCircle, CircleManager.drawCircles,
      CircleManager.isClosest, CircleManager.addCircle, closestScan, resetSelection,
      selectedOnes, Circle.constructor]

/-- C5, amended: in every state reached from the initial one by `click`,
`mousemove` and frame events, exactly one entity has `isSelected == true`, and
it is `selectedCircle`, as soon as one `mousemove` has occurred while the
registry held at least one entity; and in every reachable state the entities
with `isSelected == true` are `selectedCircle` if it is non-null, none otherwise. -/
theorem one_selected_after_mousemove (sqrt : K → K) (PI cw ch : K)
    (pre post : List (Event K)) (x y : K)
    (hne : (run sqrt PI (initial sqrt cw ch) pre).circleManager.circles ≠ []) :
    (∃ c, selectedOnes (run sqrt PI (initial sqrt cw ch)
          (pre ++ Event.mousemove x y :: post)).circleManager = [c] ∧
      (run sqrt PI (initial sqrt cw ch)
          (pre ++ Event.mousemove x y :: post)).circleManager.selectedCircle = some c) ∧
    ∀ events : List (Event K),
      selectedOnes (run sqrt PI (initial sqrt cw ch) events).circleManager =
        (run sqrt PI (initial sqrt cw ch) events).circleManager.selectedCircle.toList := by
  have hgood : ∀ events : List (Event K), (run sqrt PI (initial sqrt cw ch) events).Good :=
    fun events => good_run sqrt PI events _ (good_initial sqrt cw ch)
  refine ⟨?_, fun events => (hgood events).2.2⟩
  have hsome : (run sqrt PI (initial sqrt cw ch)
      (pre ++ Event.mousemove x y :: post)).circleManager.selectedCircle.isSome = true := by
    rw [run_append]
    have hcons : run sqrt PI (run sqrt PI (initial sqrt cw ch) pre)
        (Event.mousemove x y :: post) =
        run sqrt PI (onMousemove sqrt (run sqrt PI (initial sqrt cw ch) pre) x y) post := rfl
    rw [hcons]
    apply isSome_run
    obtain ⟨c, _, _, h3⟩ := isClosest_selectedOnes sqrt
      (run sqrt PI (initial sqrt cw ch) pre).circleManager x y (hgood pre).1 hne
    simp [onMousemove, h3]
  obtain ⟨c, hc⟩ := Option.isSome_iff_exists.1 hsome
  refine ⟨c, ?_, hc⟩
  rw [(hgood _).2.2, hc]
  rfl

/-- The witness of C5: a `click`, then a `mousemove` at `(5, 5)`, then a frame:
the one entity is selected. -/
theorem one_selected_after_mousemove_witness :
    (run Real.sqrt Real.pi (initial Real.sqrt 800 600) (oneClick ℝ)).circleManager.circles ≠ [] ∧
    ((∃ c, selectedOnes (run Real.sqrt Real.pi (initial Real.sqrt 800 600)
          (oneClick ℝ ++ Event.mousemove 5 5 :: [Event.frame])).circleManager = [c] ∧
      (run Real.sqrt Real.pi (initial Real.sqrt 800 600)
          (oneClick ℝ ++ Event.mousemove 5 5 :: [Event.frame])).circleManager.selectedCircle
        = some c) ∧
    ∀ events : List (Event ℝ),
      selectedOnes (run Real.sqrt Real.pi (initial Real.sqrt 800 600) events).circleManager =
        (run Real.sqrt Real.pi (initial Real.sqrt 800 600)
          events).circleManager.selectedCircle.toList) := by
  have hne : (run Real.sqrt Real.pi (initial Real.sqrt 800 600)
      (oneClick ℝ)).circleManager.circles ≠ [] := by
    simp [run, oneClick, step, initial, animate, onClick, CircleManager.constructor,
      CircleManager.updateSelectedCircle, CircleManager.drawCircles, CircleManager.addCircle]
  exact ⟨hne, one_selected_after_mousemove Real.sqrt Real.pi 800 600 (oneClick ℝ)
    [Event.frame] 5 5 hne⟩

/-! ## Motion towards the target -/

/-- C2, as stated, fails: the entity at `(0, 0)` is at distance 3/2 from the
target `(3/2, 0)`; one `moveTowards` at speed 2 puts it at `(2, 0)`, at
distance 1/2 from the target, and not at distance 3/2 - 2. -/
theorem moveTowards_distance_counterexample :
    (originCircle ℝ).distanceTo Real.sqrt (3 / 2) 0 = 3 / 2 ∧
    ((originCircle ℝ).moveTowards Real.sqrt (3 / 2) 0 2).x = 2 ∧
    ((originCircle ℝ).moveTowards Real.sqrt (3 / 2) 0 2).y = 0 ∧
    ((originCircle ℝ).moveTowards Real.sqrt (3 / 2) 0 2).distanceTo Real.sqrt (3 / 2) 0 = 1 / 2 ∧
    ((originCircle ℝ).moveTowards Real.sqrt (3 / 2) 0 2).distanceTo Real.sqrt (3 / 2) 0 ≠
      (originCircle ℝ).distanceTo Real.sqrt (3 / 2) 0 - 2 := by
  have hd : (originCircle ℝ).distanceTo Real.sqrt (3 / 2) 0 = 3 / 2 := by
    have h := sqrt_eq_abs Real.sqrt isSqrt_real
      (((originCircle ℝ).x - 3 / 2) ^ 2 + ((originCircle ℝ).y - 0) ^ 2) (3 / 2)
      (by norm_num [originCircle, Circle.constructor])
    rw [abs_of_pos (by norm_num)] at h
    exact h
  have hgt : 1 < (originCircle ℝ).distanceTo Real.sqrt (3 / 2) 0 := by rw [hd]; norm_num
  have hnew := moveTowards_distanceTo Real.sqrt isSqrt_real (originCircle ℝ) (3 / 2) 0 2 hgt
  rw [hd] at hnew
  have habs : |(3 / 2 : ℝ) - 2| = 1 / 2 := by
    rw [abs_of_neg (by norm_num)]; norm_num
  rw [habs] at hnew
  refine ⟨hd, ?_, ?_, hnew, ?_⟩
  · rw [moveTowards_of_gt Real.sqrt _ _ _ _ hgt, hd]
    norm_num [originCircle, Circle.constructor]
  · rw [moveTowards_of_gt Real.sqrt _ _ _ _ hgt, hd]
    norm_num [originCircle, Circle.constructor]
  · rw [hnew, hd]
    norm_num

/-- C2, amended: from a distance `d > 1` to the target, one `moveTowards` at any
speed leaves the entity at distance `|d - speed|` from the target, which is
`d - speed` when `speed ≤ d`; the new position is `p + (speed / d) (t - p)`, a
point of the straight line through the old position `p` and the target `t`. -/
theorem moveTowards_distance_and_line (sqrt : K → K) (hs : IsSqrt sqrt) (c : Circle K)
    (tx ty speed : K) (hd : 1 < c.distanceTo sqrt tx ty) :
    (c.moveTowards sqrt tx ty speed).distanceTo sqrt tx ty =
      |c.distanceTo sqrt tx ty - speed| ∧
    (speed ≤ c.distanceTo sqrt tx ty →
      (c.moveTowards sqrt tx ty speed).distanceTo sqrt tx ty =
        c.distanceTo sqrt tx ty - speed) ∧
    (c.moveTowards sqrt tx ty speed).x =
      c.x + speed / c.distanceTo sqrt tx ty * (tx - c.x) ∧
    (c.moveTowards sqrt tx ty speed).y =
      c.y + speed / c.distanceTo sqrt tx ty * (ty - c.y) := by
  have hnew := moveTowards_distanceTo sqrt hs c tx ty speed hd
  refine ⟨hnew, ?_, ?_, ?_⟩
  · intro hle
    rw [hnew, abs_of_nonneg (sub_nonneg.2 hle)]
  · rw [moveTowards_of_gt sqrt c tx ty speed hd]
    simp only
    ring
  · rw [moveTowards_of_gt sqrt c tx ty speed hd]
    simp only
    ring

/-- The witness of C2: the entity at `(0, 0)`, the target `(10, 0)`, speed 2. -/
theorem moveTowards_distance_and_line_witness :
    IsSqrt Real.sqrt ∧
    1 < (originCircle ℝ).distanceTo Real.sqrt 10 0 ∧
    ((originCircle ℝ).moveTowards Real.sqrt 10 0 2).distanceTo Real.sqrt 10 0 =
      |(originCircle ℝ).distanceTo Real.sqrt 10 0 - 2| ∧
    ((2 : ℝ) ≤ (originCircle ℝ).distanceTo Real.sqrt 10 0 →
      ((originCircle ℝ).moveTowards Real.sqrt 10 0 2).distanceTo Real.sqrt 10 0 =
        (originCircle ℝ).distanceTo Real.sqrt 10 0 - 2) ∧
    ((originCircle ℝ).moveTowards Real.sqrt 10 0 2).x =
      (originCircle ℝ).x + 2 / (originCircle ℝ).distanceTo Real.sqrt 10 0 *
        (10 - (originCircle ℝ).x) ∧
    ((originCircle ℝ).moveTowards Real.sqrt 10 0 2).y =
      (originCircle ℝ).y + 2 / (originCircle ℝ).distanceTo Real.sqrt 10 0 *
        (0 - (originCircle ℝ).y) := by
  have hd : (originCircle ℝ).distanceTo Real.sqrt 10 0 = 10 := by
    have h := sqrt_eq_abs Real.sqrt isSqrt_real
      (((originCircle ℝ).x - 10) ^ 2 + ((originCircle ℝ).y - 0) ^ 2) 10
      (by norm_num [originCircle, Circle.constructor])
    rw [abs_of_pos (by norm_num)] at h
    exact h
  have hgt : 1 < (originCircle ℝ).distanceTo Real.sqrt 10 0 := by rw [hd]; norm_num
  exact ⟨isSqrt_real, hgt,
    moveTowards_distance_and_line Real.sqrt isSqrt_real (originCircle ℝ) 10 0 2 hgt⟩

/-- C3, as stated, fails: the entity at `(2^60, 0)` is at distance `2^60` from
the target `(0, 0)`; the step would take it to `2^60 - 2`, whose nearest double
is `2^60`, so `moveTowards(0, 0)` leaves it where it is, and after any number
of calls it is still there, not within 1 unit of the target. -/
theorem moveTowards_converges_counterexample :
    (circleAtX ℝ (2 ^ 60)).distanceTo Real.sqrt 0 0 = 2 ^ 60 ∧
    ((circleAtX ℝ (2 ^ 60)).moveTowards Real.sqrt 0 0 defaultSpeed).x = 2 ^ 60 - 2 ∧
    roundDouble ((2 : ℝ) ^ 60 - 2) = 2 ^ 60 ∧
    (circleAtX ℝ (2 ^ 60)).moveTowardsRounded roundDouble Real.sqrt 0 0 defaultSpeed =
      circleAtX ℝ (2 ^ 60) ∧
    (∀ n, moveTowardsRoundedTimes roundDouble Real.sqrt 0 0 n (circleAtX ℝ (2 ^ 60)) =
      circleAtX ℝ (2 ^ 60)) ∧
    ¬ ∃ n, (moveTowardsRoundedTimes roundDouble Real.sqrt 0 0 n
        (circleAtX ℝ (2 ^ 60))).distanceTo Real.sqrt 0 0 ≤ 1 ∧
      ∀ k, n ≤ k → moveTowardsRoundedTimes roundDouble Real.sqrt 0 0 k (circleAtX ℝ (2 ^ 60)) =
        moveTowardsRoundedTimes roundDouble Real.sqrt 0 0 n (circleAtX ℝ (2 ^ 60)) := by
  have hd : (circleAtX ℝ (2 ^ 60)).distanceTo Real.sqrt 0 0 = 2 ^ 60 := by
    rw [distanceTo_circleAtX Real.sqrt isSqrt_real, sub_zero, abs_of_pos (by norm_num)]
  have hgt : 1 < (circleAtX ℝ (2 ^ 60)).distanceTo Real.sqrt 0 0 := by rw [hd]; norm_num
  have hexact : ((circleAtX ℝ (2 ^ 60)).moveTowards Real.sqrt 0 0 defaultSpeed).x =
      2 ^ 60 - 2 := by
    rw [moveTowards_of_gt Real.sqrt _ _ _ _ hgt, hd]
    norm_num [circleAtX, Circle.constructor, defaultSpeed]
  have hp : ∀ k : Nat, roundDouble ((2 : ℝ) ^ k) = (2 : ℝ) ^ k := by
    intro k
    have := roundDouble_two_pow (K := ℝ) (k : Int)
    simpa using this
  have hn : ∀ k : Nat, roundDouble (-(2 : ℝ) ^ k) = -(2 : ℝ) ^ k := by
    intro k
    have := roundDouble_neg_two_pow (K := ℝ) (k : Int)
    simpa using this
  have hfix : (circleAtX ℝ (2 ^ 60)).moveTowardsRounded roundDouble Real.sqrt 0 0
      defaultSpeed = circleAtX ℝ (2 ^ 60) := by
    apply moveTowardsRounded_absorbed roundDouble Real.sqrt isSqrt_real
    · norm_num
    · simp [roundDouble]
    · exact hn 60
    · rw [← pow_mul]; exact hp _
    · exact hp 60
    · simpa using hn 0
    · simpa using hn 1
    · exact roundDouble_absorbs
  have hall : ∀ n, moveTowardsRoundedTimes roundDouble Real.sqrt 0 0 n (circleAtX ℝ (2 ^ 60)) =
      circleAtX ℝ (2 ^ 60) := by
    intro n
    induction n with
    | zero => rfl
    | succ n ih => rw [moveTowardsRoundedTimes_succ_last, ih, hfix]
  refine ⟨hd, hexact, roundDouble_absorbs, hfix, hall, ?_⟩
  rintro ⟨n, hle, _⟩
  rw [hall n, hd] at hle
  norm_num at hle

/-- C3, amended: with the default speed 2 and a fixed target, when every step
along the way is computed without rounding error, repeated calls of
`moveTowards` converge: after some number `n` of calls the entity is within 1
unit of the target, and every further call leaves it where it is. -/
theorem moveTowardsRounded_converges [Archimedean K] (round sqrt : K → K) (hs : IsSqrt sqrt)
    (c : Circle K) (tx ty : K)
    (hexact : ∀ k, (moveTowardsTimes sqrt tx ty k c).moveTowardsRounded round sqrt tx ty
      defaultSpeed = (moveTowardsTimes sqrt tx ty k c).moveTowards sqrt tx ty defaultSpeed) :
    ∃ n, (moveTowardsRoundedTimes round sqrt tx ty n c).distanceTo sqrt tx ty ≤ 1 ∧
      ∀ k, n ≤ k → moveTowardsRoundedTimes round sqrt tx ty k c =
        moveTowardsRoundedTimes round sqrt tx ty n c := by
  obtain ⟨n, hn, hstay⟩ := moveTowardsTimes_converges sqrt hs c tx ty
  refine ⟨n, ?_, ?_⟩
  · rw [moveTowardsRoundedTimes_eq round sqrt tx ty c hexact]
    exact hn
  · intro k hk
    rw [moveTowardsRoundedTimes_eq round sqrt tx ty c hexact,
      moveTowardsRoundedTimes_eq round sqrt tx ty c hexact]
    exact hstay k hk

/-- The witness of C3: on doubles, the entity at `(0, 0)` with
`moveTowards(10, 0, 2)` is at `(2, 0)` after one call, `(4, 0)` after two,
`(10, 0)` after five, and at `(10, 0)` after every later call. -/
theorem moveTowardsRounded_converges_witness :
    IsSqrt Real.sqrt ∧
    (∀ k, (moveTowardsTimes Real.sqrt 10 0 k (circleAtX ℝ 0)).moveTowardsRounded roundDouble
        Real.sqrt 10 0 defaultSpeed =
      (moveTowardsTimes Real.sqrt 10 0 k (circleAtX ℝ 0)).moveTowards Real.sqrt 10 0
        defaultSpeed) ∧
    (∃ n, (moveTowardsRoundedTimes roundDouble Real.sqrt 10 0 n
        (circleAtX ℝ 0)).distanceTo Real.sqrt 10 0 ≤ 1 ∧
      ∀ k, n ≤ k → moveTowardsRoundedTimes roundDouble Real.sqrt 10 0 k (circleAtX ℝ 0) =
        moveTowardsRoundedTimes roundDouble Real.sqrt 10 0 n (circleAtX ℝ 0)) ∧
    moveTowardsRoundedTimes roundDouble Real.sqrt 10 0 1 (circleAtX ℝ 0) = circleAtX ℝ 2 ∧
    moveTowardsRoundedTimes roundDouble Real.sqrt 10 0 2 (circleAtX ℝ 0) = circleAtX ℝ 4 ∧
    moveTowardsRoundedTimes roundDouble Real.sqrt 10 0 5 (circleAtX ℝ 0) = circleAtX ℝ 10 ∧
    ∀ k, 5 ≤ k →
      moveTowardsRoundedTimes roundDouble Real.sqrt 10 0 k (circleAtX ℝ 0) = circleAtX ℝ 10 := by
  have hstep : ∀ a : ℝ, 1 < 10 - a →
      (circleAtX ℝ a).moveTowards Real.sqrt 10 0 defaultSpeed = circleAtX ℝ (a + 2) :=
    fun a ha => moveTowards_circleAtX Real.sqrt isSqrt_real a 10 2 ha
  have h1 : moveTowardsTimes Real.sqrt 10 0 1 (circleAtX ℝ 0) = circleAtX ℝ 2 := by
    rw [moveTowardsTimes_succ_last]
    show (circleAtX ℝ 0).moveTowards Real.sqrt 10 0 defaultSpeed = _
    rw [hstep 0 (by norm_num)]; norm_num
  have h2 : moveTowardsTimes Real.sqrt 10 0 2 (circleAtX ℝ 0) = circleAtX ℝ 4 := by
    rw [moveTowardsTimes_succ_last, h1, hstep 2 (by norm_num)]; norm_num
  have h3 : moveTowardsTimes Real.sqrt 10 0 3 (circleAtX ℝ 0) = circleAtX ℝ 6 := by
    rw [moveTowardsTimes_succ_last, h2, hstep 4 (by norm_num)]; norm_num
  have h4 : moveTowardsTimes Real.sqrt 10 0 4 (circleAtX ℝ 0) = circleAtX ℝ 8 := by
    rw [moveTowardsTimes_succ_last, h3, hstep 6 (by norm_num)]; norm_num
  have h5 : moveTowardsTimes Real.sqrt 10 0 5 (circleAtX ℝ 0) = circleAtX ℝ 10 := by
    rw [moveTowardsTimes_succ_last, h4, hstep 8 (by norm_num)]; norm_num
  have harrived : (circleAtX ℝ 10).distanceTo Real.sqrt 10 0 ≤ 1 := by
    rw [distanceTo_circleAtX Real.sqrt isSqrt_real]; norm_num
  have hlater : ∀ k, 5 ≤ k → moveTowardsTimes Real.sqrt 10 0 k (circleAtX ℝ 0) =
      circleAtX ℝ 10 := by
    intro k hk
    obtain ⟨j, rfl⟩ := Nat.exists_eq_add_of_le hk
    rw [Nat.add_comm, moveTowardsTimes_add, h5,
      moveTowardsTimes_of_le Real.sqrt 10 0 _ harrived]
  have hint : ∀ a : Int, 0 ≤ a → a ≤ 10 →
      (circleAtX ℝ (a : ℝ)).moveTowardsRounded roundDouble Real.sqrt 10 0 defaultSpeed =
        (circleAtX ℝ (a : ℝ)).moveTowards Real.sqrt 10 0 defaultSpeed := by
    intro a ha0 ha10
    have h := moveTowardsRounded_circleAtX roundDouble Real.sqrt isSqrt_real
      (fun n hn => roundDouble_intCast n hn) a 10 ha10
      (by rw [abs_lt]; constructor <;> omega) (by norm_num)
    simpa using h
  have hexact : ∀ k, (moveTowardsTimes Real.sqrt 10 0 k (circleAtX ℝ 0)).moveTowardsRounded
      roundDouble Real.sqrt 10 0 defaultSpeed =
      (moveTowardsTimes Real.sqrt 10 0 k (circleAtX ℝ 0)).moveTowards Real.sqrt 10 0
        defaultSpeed := by
    intro k
    by_cases hk : 5 ≤ k
    · rw [hlater k hk]
      simpa using hint 10 (by norm_num) (by norm_num)
    · have hk5 : k = 0 ∨ k = 1 ∨ k = 2 ∨ k = 3 ∨ k = 4 := by omega
      rcases hk5 with h | h | h | h | h <;> subst h
      · simpa using hint 0 (by norm_num) (by norm_num)
      · rw [h1]; simpa using hint 2 (by norm_num) (by norm_num)
      · rw [h2]; simpa using hint 4 (by norm_num) (by norm_num)
      · rw [h3]; simpa using hint 6 (by norm_num) (by norm_num)
      · rw [h4]; simpa using hint 8 (by norm_num) (by norm_num)
  have heq := moveTowardsRoundedTimes_eq roundDouble Real.sqrt 10 0 (circleAtX ℝ 0) hexact
  refine ⟨isSqrt_real, hexact,
    moveTowardsRounded_converges roundDouble Real.sqrt isSqrt_real (circleAtX ℝ 0) 10 0 hexact,
    by rw [heq, h1], by rw [heq, h2], by rw [heq, h5], ?_⟩
  intro k hk
  rw [heq, hlater k hk]

/-- C10: for a speed `s > 2`, an entity at distance exactly `s / 2` from the
target is moved by `moveTowards` at speed `s` to the point mirrored through the
target, again at distance `s / 2 > 1`; the next call moves it back to where it
was, and after any number of calls it is farther than 1 unit from the target. -/
theorem moveTowards_oscillates (sqrt : K → K) (c : Circle K) (tx ty s : K) (hs : 2 < s)
    (hd : c.distanceTo sqrt tx ty = s / 2) :
    (c.moveTowards sqrt tx ty s).x = 2 * tx - c.x ∧
    (c.moveTowards sqrt tx ty s).y = 2 * ty - c.y ∧
    (c.moveTowards sqrt tx ty s).distanceTo sqrt tx ty = s / 2 ∧
    1 < s / 2 ∧
    (c.moveTowards sqrt tx ty s).moveTowards sqrt tx ty s = c ∧
    ∀ n : Nat, 1 < ((fun d => Circle.moveTowards sqrt d tx ty s)^[n] c).distanceTo sqrt tx ty := by
  have hhalf : 1 < s / 2 := by linarith
  have hs0 : s ≠ 0 := by linarith
  have hgt : 1 < c.distanceTo sqrt tx ty := by rw [hd]; exact hhalf
  have hx : (c.moveTowards sqrt tx ty s).x = 2 * tx - c.x := by
    rw [moveTowards_of_gt sqrt c tx ty s hgt, hd]
    simp only
    field_simp
    ring
  have hy : (c.moveTowards sqrt tx ty s).y = 2 * ty - c.y := by
    rw [moveTowards_of_gt sqrt c tx ty s hgt, hd]
    simp only
    field_simp
    ring
  have hd1 : (c.moveTowards sqrt tx ty s).distanceTo sqrt tx ty = s / 2 := by
    rw [← hd]
    unfold Circle.distanceTo
    rw [hx, hy]
    congr 1
    ring
  have hback : (c.moveTowards sqrt tx ty s).moveTowards sqrt tx ty s = c := by
    rw [moveTowards_of_gt sqrt (c.moveTowards sqrt tx ty s) tx ty s (by rw [hd1]; exact hhalf),
      hd1, hx, hy]
    rw [moveTowards_of_gt sqrt c tx ty s hgt]
    cases c with
    | mk x y radius color isSelected moonRadius orbitRadius angle orbitSpeed =>
      simp only [Circle.mk.injEq, and_true]
      constructor
      · field_simp
        ring
      · field_simp
        ring
  refine ⟨hx, hy, hd1, hhalf, hback, ?_⟩
  have hboth : ∀ n : Nat,
      ((fun d => Circle.moveTowards sqrt d tx ty s)^[n] c = c ∨
        (fun d => Circle.moveTowards sqrt d tx ty s)^[n] c = c.moveTowards sqrt tx ty s) := by
    intro n
    induction n with
    | zero => exact Or.inl rfl
    | succ n ih =>
      rw [Function.iterate_succ_apply']
      rcases ih with h | h
      · exact Or.inr (by rw [h])
      · exact Or.inl (by rw [h]; exact hback)
  intro n
  rcases hboth n with h | h
  · rw [h]; exact hgt
  · rw [h, hd1]; exact hhalf

/-- The witness of C10: speed 4, the target `(2, 0)`, the entity at `(0, 0)`, at
distance 2 from the target: it jumps to `(4, 0)` and back. -/
theorem moveTowards_oscillates_witness :
    (2 : ℝ) < 4 ∧
    (circleAtX ℝ 0).distanceTo Real.sqrt 2 0 = 4 / 2 ∧
    ((circleAtX ℝ 0).moveTowards Real.sqrt 2 0 4).x = 2 * 2 - (circleAtX ℝ 0).x ∧
    ((circleAtX ℝ 0).moveTowards Real.sqrt 2 0 4).y = 2 * 0 - (circleAtX ℝ 0).y ∧
    ((circleAtX ℝ 0).moveTowards Real.sqrt 2 0 4).distanceTo Real.sqrt 2 0 = 4 / 2 ∧
    (1 : ℝ) < 4 / 2 ∧
    ((circleAtX ℝ 0).moveTowards Real.sqrt 2 0 4).moveTowards Real.sqrt 2 0 4 = circleAtX ℝ 0 ∧
    ∀ n : Nat, 1 < ((fun d => Circle.moveTowards Real.sqrt d 2 0 4)^[n]
      (circleAtX ℝ 0)).distanceTo Real.sqrt 2 0 := by
  have hd : (circleAtX ℝ 0).distanceTo Real.sqrt 2 0 = 4 / 2 := by
    rw [distanceTo_circleAtX Real.sqrt isSqrt_real, abs_of_neg (by norm_num)]
    norm_num
  exact ⟨by norm_num, hd,
    moveTowards_oscillates Real.sqrt (circleAtX ℝ 0) 2 0 4 (by norm_num) hd⟩

end CanvasSpaceOdyssey
